import Mathlib

/-!
Verification of the Soko artifact warehouse (hardhat-soko) against its
specification. The development shallowly embeds the identity deriver, the
format normalizers, the push and pull synchronization operations, the S3
object-store upload, and the local-store listing, and proves or refutes the
spec claims about them.

The SHA-256 function is embedded concretely (over byte lists represented as
natural numbers below 256) so that artifact identifiers can be evaluated
inside the kernel on concrete inputs.
-/

namespace Soko

/-- Modulus for 32-bit words. -/
def m32 : Nat := 4294967296

/-- Addition modulo 2^32. -/
def add32 (a b : Nat) : Nat := (a + b) % m32

/-- Right rotation of a 32-bit word by n bits. -/
def rotr32 (n x : Nat) : Nat := ((x >>> n) ||| (x <<< (32 - n))) % m32

/-- SHA-256 choice function. -/
def shaCh (x y z : Nat) : Nat := (x &&& y) ^^^ ((x ^^^ (m32 - 1)) &&& z)

/-- SHA-256 majority function. -/
def shaMaj (x y z : Nat) : Nat := (x &&& y) ^^^ (x &&& z) ^^^ (y &&& z)

/-- SHA-256 big sigma 0. -/
def bigSigma0 (x : Nat) : Nat := rotr32 2 x ^^^ rotr32 13 x ^^^ rotr32 22 x

/-- SHA-256 big sigma 1. -/
def bigSigma1 (x : Nat) : Nat := rotr32 6 x ^^^ rotr32 11 x ^^^ rotr32 25 x

/-- SHA-256 small sigma 0. -/
def smallSigma0 (x : Nat) : Nat := rotr32 7 x ^^^ rotr32 18 x ^^^ (x >>> 3)

/-- SHA-256 small sigma 1. -/
def smallSigma1 (x : Nat) : Nat := rotr32 17 x ^^^ rotr32 19 x ^^^ (x >>> 10)

/-- The 64 SHA-256 round constants. -/
def shaK : List Nat :=
  [1116352408, 1899447441, 3049323471, 3921009573,
   961987163, 1508970993, 2453635748, 2870763221,
   3624381080, 310598401, 607225278, 1426881987,
   1925078388, 2162078206, 2614888103, 3248222580,
   3835390401, 4022224774, 264347078, 604807628,
   770255983, 1249150122, 1555081692, 1996064986,
   2554220882, 2821834349, 2952996808, 3210313671,
   3336571891, 3584528711, 113926993, 338241895,
   666307205, 773529912, 1294757372, 1396182291,
   1695183700, 1986661051, 2177026350, 2456956037,
   2730485921, 2820302411, 3259730800, 3345764771,
   3516065817, 3600352804, 4094571909, 275423344,
   430227734, 506948616, 659060556, 883997877,
   958139571, 1322822218, 1537002063, 1747873779,
   1955562222, 2024104815, 2227730452, 2361852424,
   2428436474, 2756734187, 3204031479, 3329325298]

/-- Big-endian encoding of a natural number as 8 bytes. -/
def lenBytes64 (n : Nat) : List Nat :=
  [(n >>> 56) % 256, (n >>> 48) % 256, (n >>> 40) % 256, (n >>> 32) % 256,
   (n >>> 24) % 256, (n >>> 16) % 256, (n >>> 8) % 256, n % 256]

/-- SHA-256 padding: append 0x80, zero bytes, and the 64-bit message bit length,
so the total length is a multiple of 64 bytes. -/
def shaPad (msg : List Nat) : List Nat :=
  let l := msg.length
  let k := (119 - l % 64) % 64
  msg ++ 0x80 :: (List.replicate k 0 ++ lenBytes64 (8 * l))

/-- Splits a byte list into chunks of 64, driven by a fuel argument. -/
def chunk64 : Nat → List Nat → List (List Nat)
  | 0, _ => []
  | _, [] => []
  | fuel + 1, l => l.take 64 :: chunk64 fuel (l.drop 64)

/-- The 64-byte blocks of a padded message. -/
def blocksOf (l : List Nat) : List (List Nat) := chunk64 l.length l

/-- Big-endian 32-bit words of a byte list. -/
def bytesToWords : List Nat → List Nat
  | a :: b :: c :: d :: rest => (((a * 256 + b) * 256 + c) * 256 + d) :: bytesToWords rest
  | _ => []

/-- Extends a message schedule by the given number of words. -/
def extendSchedule : Nat → List Nat → List Nat
  | 0, ws => ws
  | n + 1, ws =>
    let t := ws.length
    let w := (smallSigma1 (ws.getD (t - 2) 0) + ws.getD (t - 7) 0 +
              smallSigma0 (ws.getD (t - 15) 0) + ws.getD (t - 16) 0) % m32
    extendSchedule n (ws ++ [w])

/-- The 64-word message schedule of a 64-byte block. -/
def schedule (block : List Nat) : List Nat := extendSchedule 48 (bytesToWords block)

/-- The eight 32-bit working variables of SHA-256. -/
structure Sha8 where
  a : Nat
  b : Nat
  c : Nat
  d : Nat
  e : Nat
  f : Nat
  g : Nat
  h : Nat
deriving DecidableEq

/-- One SHA-256 compression round; kw is the sum of the round constant and the
schedule word. -/
def shaRound (st : Sha8) (kw : Nat) : Sha8 :=
  let t1 := (st.h + bigSigma1 st.e + shaCh st.e st.f st.g + kw) % m32
  let t2 := (bigSigma0 st.a + shaMaj st.a st.b st.c) % m32
  { a := (t1 + t2) % m32, b := st.a, c := st.b, d := st.c,
    e := (st.d + t1) % m32, f := st.e, g := st.f, h := st.g }

/-- Compression of one 64-byte block into the running state. -/
def compressBlock (H : Sha8) (block : List Nat) : Sha8 :=
  let ks := (shaK.zip (schedule block)).map (fun p => (p.1 + p.2) % m32)
  let st := ks.foldl shaRound H
  { a := add32 H.a st.a, b := add32 H.b st.b, c := add32 H.c st.c,
    d := add32 H.d st.d, e := add32 H.e st.e, f := add32 H.f st.f,
    g := add32 H.g st.g, h := add32 H.h st.h }

/-- The SHA-256 initial state. -/
def shaH0 : Sha8 :=
  ⟨1779033703, 3144134277, 1013904242, 2773480762,
   1359893119, 2600822924, 528734635, 1541459225⟩

/-- Big-endian bytes of a 32-bit word. -/
def wordBytes (w : Nat) : List Nat :=
  [(w >>> 24) % 256, (w >>> 16) % 256, (w >>> 8) % 256, w % 256]

/-- The SHA-256 digest (32 bytes) of a byte list. -/
def sha256 (msg : List Nat) : List Nat :=
  let fin := (blocksOf (shaPad msg)).foldl compressBlock shaH0
  wordBytes fin.a ++ wordBytes fin.b ++ wordBytes fin.c ++ wordBytes fin.d ++
  wordBytes fin.e ++ wordBytes fin.f ++ wordBytes fin.g ++ wordBytes fin.h

/-- Lowercase hexadecimal digit for a value below 16. -/
def hexDigit (n : Nat) : Char :=
  if n < 10 then Char.ofNat (48 + n) else Char.ofNat (87 + n)

/-- Two lowercase hexadecimal digits of a byte. -/
def byteHex (b : Nat) : List Char := [hexDigit (b / 16), hexDigit (b % 16)]

/-- Lowercase hexadecimal rendering of a byte list. -/
def bytesToHex (bs : List Nat) : String :=
  ⟨bs.foldr (fun b acc => byteHex b ++ acc) []⟩

/-- Lowercase hexadecimal SHA-256 digest of a byte list. -/
def sha256Hex (msg : List Nat) : String := bytesToHex (sha256 msg)

/-- UTF-8 encoding of one character. -/
def utf8Char (c : Char) : List Nat :=
  let n := c.toNat
  if n < 128 then [n]
  else if n < 2048 then [192 + n / 64, 128 + n % 64]
  else if n < 65536 then [224 + n / 4096, 128 + (n / 64) % 64, 128 + n % 64]
  else [240 + n / 262144, 128 + (n / 4096) % 64, 128 + (n / 64) % 64, 128 + n % 64]

/-- UTF-8 bytes of a string, as fed to the hash by crypto.createHash update. -/
def utf8Bytes (s : String) : List Nat :=
  s.data.foldr (fun c acc => utf8Char c ++ acc) []

/-- First n characters of a string, the model of the JavaScript slice(0, n)
call on the hexadecimal digest (hex digests are ASCII, so code units and
characters coincide). -/
def sliceChars (s : String) (n : Nat) : String := ⟨s.data.take n⟩

/-!
Canonical artifact data model, embedded from the zod schemas. JSON object
values that the system never inspects (ABI arrays, doc objects, bytecode
objects, settings sub-objects) are carried as opaque strings; JSON objects
whose enumeration order matters (the contracts mapping of the compiler
output) are carried as association lists in enumeration (insertion) order,
which is the order Object.values iterates JavaScript objects.
-/

/-- EVM section of a contract in the solc standard JSON output, embedded from
SolcContractSchema as it is consumed in push.ts. -/
structure SolcEvmOutput where
  assembly : Option String
  legacyAssembly : Option String
  bytecode : String
  deployedBytecode : String
  methodIdentifiers : Option String
  gasEstimates : Option String
deriving DecidableEq

/-- One contract of the solc standard JSON output (SolcContractSchema). The
metadata field holds the raw structured-metadata string emitted by solc; it
is the only field the identity deriver reads. -/
structure SolcContractOutput where
  abi : String
  metadata : String
  userdoc : Option String
  devdoc : Option String
  ir : Option String
  irAst : Option String
  irOptimized : Option String
  irOptimizedAst : Option String
  storageLayout : Option String
  transientStorageLayout : Option String
  evm : SolcEvmOutput
deriving DecidableEq

/-- The solc standard JSON output (SolcJsonOutputSchema): errors, sources and
the contracts mapping, nested source-file-path key then contract-name key, in
enumeration order. -/
structure SolcJsonOutput where
  errors : Option String
  sources : Option String
  contracts : List (String × List (String × SolcContractOutput))
deriving DecidableEq

/-- Compiler input settings (SettingsSchema); sub-objects the system never
inspects are opaque strings. Libraries use the standard JSON input shape:
file path key, then library name key, then address. -/
structure SolcSettings where
  remappings : Option String
  optimizer : Option String
  evmVersion : Option String
  eofVersion : Option String
  viaIR : Option String
  metadata : Option String
  outputSelection : Option String
  modelChecker : Option String
  libraries : Option (List (String × List (String × String)))
deriving DecidableEq

/-- Compiler input description (SolcJsonInputSchema). -/
structure SolcInput where
  language : String
  sources : List (String × String)
  settings : SolcSettings
deriving DecidableEq

/-- Format discriminator of Hardhat v2 build info files. -/
def hardhatFormat : String := "hh-sol-build-info-1"

/-- Format discriminator of Forge build info files produced with the
build-info option. -/
def forgeBuildInfoFormat : String := "ethers-rs-sol-build-info-1"

/-- Format discriminator recorded for artifacts reconstructed from the Forge
default scattered output. -/
def forgeDefaultFormat : String := "forge-v1.6-default"

/-- A Hardhat v2 build info file (HardhatCompilerOutputSchema); the literal
format discriminator field is the constant hardhatFormat. -/
structure HardhatBuildInfo where
  id : String
  solcVersion : Option String
  solcLongVersion : String
  input : SolcInput
  output : SolcJsonOutput
deriving DecidableEq

/-- A Forge build info file produced with the build-info option
(ForgeCompilerOutputWithBuildInfoOptionSchema); the literal format
discriminator field is the constant forgeBuildInfoFormat. -/
structure ForgeBuildInfoWithOption where
  id : String
  sourceIdToPath : List (String × String)
  language : String
  input : SolcInput
  output : SolcJsonOutput
  solcLongVersion : String
  solcVersion : Option String
deriving DecidableEq

/-- The canonical Soko artifact (SokoArtifactSchema). The origin object is
flattened into originId and originFormat. -/
structure SokoArtifact where
  id : String
  originId : String
  originFormat : String
  solcLongVersion : String
  input : SolcInput
  output : SolcJsonOutput
deriving DecidableEq

/-- Model of one hash.update call: the running SHA-256 hash is represented as
the byte sequence fed so far, so update appends the UTF-8 bytes of the
string (crypto hash.update with a string uses UTF-8). -/
def hashUpdate (acc : List Nat) (s : String) : List Nat := acc ++ utf8Bytes s

/-- Embedding of deriveSokoArtifactId: initialize a SHA-256 hash, feed the
metadata string of each contract of output.contracts in enumeration order
(outer loop over source-file records, inner loop over contracts), finalize,
hex-encode, and keep the first 12 characters. -/
def deriveSokoArtifactId (output : SolcJsonOutput) : String :=
  let fed := output.contracts.foldl
    (fun acc fileContractsRecord =>
      fileContractsRecord.2.foldl (fun acc2 c => hashUpdate acc2 c.2.metadata) acc)
    []
  sliceChars (sha256Hex fed) 12

/-- The sequence of raw per-contract metadata strings of an output, in the
enumeration order used by the identity deriver. -/
def metadataSequence (o : SolcJsonOutput) : List String :=
  (o.contracts.map (fun fc => fc.2.map (fun c => c.2.metadata))).foldr (· ++ ·) []

/-- Concatenation of the UTF-8 bytes of a sequence of strings: the total
byte stream fed to the hash when each string is fed in order. -/
def concatUtf8 (l : List String) : List Nat :=
  l.foldr (fun s r => utf8Bytes s ++ r) []

/-- Normalizer for the Hardhat v2 build info format (the first branch of
mapBuildInfoToSokoArtifact): a passthrough mapping plus identity derivation;
it contributes no additional artifact paths. -/
def mapHardhatBuildInfoToSokoArtifact (b : HardhatBuildInfo) : SokoArtifact :=
  { id := deriveSokoArtifactId b.output
    originId := b.id
    originFormat := hardhatFormat
    solcLongVersion := b.solcLongVersion
    input := b.input
    output := b.output }

/-- Normalizer for the Forge build info format with the build-info option
(the second branch of mapBuildInfoToSokoArtifact): a passthrough mapping plus
identity derivation; it contributes no additional artifact paths. -/
def mapForgeBuildInfoToSokoArtifact (b : ForgeBuildInfoWithOption) : SokoArtifact :=
  { id := deriveSokoArtifactId b.output
    originId := b.id
    originFormat := forgeBuildInfoFormat
    solcLongVersion := b.solcLongVersion
    input := b.input
    output := b.output }

/-- The per-contract compilation triples (source path, contract name, raw
metadata string) described by an output, in enumeration order. -/
def contractTriples (o : SolcJsonOutput) : List (String × String × String) :=
  (o.contracts.map (fun fc => fc.2.map (fun c => (fc.1, c.1, c.2.metadata)))).foldr (· ++ ·) []

/-- Boolean check that two outputs describe bytewise-identical per-contract
metadata over the same set of contracts: the contract triples of one are a
permutation of those of the other. -/
def sameContractSet (o1 o2 : SolcJsonOutput) : Bool :=
  let t1 := contractTriples o1
  let t2 := contractTriples o2
  t1.length == t2.length && t1.all (fun x => t1.count x == t2.count x)

/-!
Remote store model. The S3 bucket is a key-to-body map, modelled as an
association list where a put prepends (so the most recent put wins on
lookup). Reads of local original-content files during upload go through an
association list modelling the filesystem.
-/

/-- The remote object store: keys to bodies, most recent put first. -/
abbrev ObjectStore := List (String × String)

/-- PutObject: write a body under a key (overwriting any previous body). -/
def putObject (s : ObjectStore) (k v : String) : ObjectStore := (k, v) :: s

/-- GetObject: the body stored under a key, if any. -/
def getObject (s : ObjectStore) (k : String) : Option String :=
  match s with
  | [] => none
  | (k0, v0) :: rest => if k0 = k then some v0 else getObject rest k

/-- Reading a file from the filesystem model. -/
def readFile (fs : List (String × String)) (p : String) : Option String :=
  match fs with
  | [] => none
  | (p0, c0) :: rest => if p0 = p then some c0 else readFile rest p

/-- Key of the canonical JSON object of an artifact id. -/
def idKey (root project id : String) : String :=
  root ++ "/" ++ project ++ "/ids/" ++ id ++ ".json"

/-- Key of the JSON object of a tag. -/
def tagKey (root project tag : String) : String :=
  root ++ "/" ++ project ++ "/tags/" ++ tag ++ ".json"

/-- Key of an archived original-content file of an artifact id. -/
def originalKey (root project id san : String) : String :=
  root ++ "/" ++ project ++ "/ids/" ++ id ++ "/original-content/" ++ san

/-- Path sanitization of uploadArtifact: strip one leading slash, then one
leading dot-slash (two sequential conditionals, as in the source). The
prefix tests and drops are written on the character data, which coincides
with the JavaScript startsWith and substring calls on these ASCII prefixes. -/
def sanitizePath (p : String) : String :=
  let p1 : String := if ['/'].isPrefixOf p.data then ⟨p.data.drop 1⟩ else p
  if ['.', '/'].isPrefixOf p1.data then ⟨p1.data.drop 2⟩ else p1

/-- Stand-in for JSON.stringify on a contract output. -/
def serializeContract (c : SolcContractOutput) : String :=
  "abi=" ++ c.abi ++ ";metadata=" ++ c.metadata ++ ";bytecode=" ++ c.evm.bytecode ++
  ";deployedBytecode=" ++ c.evm.deployedBytecode

/-- Stand-in for JSON.stringify on a whole artifact: a concrete rendering of
its fields (the store model only needs bytes that are copied around intact). -/
def serializeArtifact (a : SokoArtifact) : String :=
  "id=" ++ a.id ++ ";originId=" ++ a.originId ++ ";originFormat=" ++ a.originFormat ++
  ";solcLongVersion=" ++ a.solcLongVersion ++ ";contracts=" ++
  (a.output.contracts.foldl
    (fun acc fc => fc.2.foldl (fun acc2 c => acc2 ++ fc.1 ++ ":" ++ c.1 ++ "=" ++ serializeContract c.2) acc)
    "")

/-- HasArtifactByTag of the S3 provider: a GetObject on the tag key,
translating a missing key into false. -/
def hasArtifactByTag (root project tag : String) (s : ObjectStore) : Bool :=
  (getObject s (tagKey root project tag)).isSome

/-- HasArtifactById of the S3 provider. -/
def hasArtifactById (root project id : String) (s : ObjectStore) : Bool :=
  (getObject s (idKey root project id)).isSome

/-- Uploads the archived original-content files one by one; a failed file
read aborts with the puts made so far kept (the store is returned in both
outcomes, mirroring that S3 writes already issued are not rolled back). -/
def uploadOriginals (root project id : String) (paths : List String)
    (fs : List (String × String)) (s : ObjectStore) : Bool × ObjectStore :=
  match paths with
  | [] => (true, s)
  | p :: rest =>
    match readFile fs p with
    | none => (false, s)
    | some c =>
      uploadOriginals root project id rest fs
        (putObject s (originalKey root project id (sanitizePath p)) c)

/-- Embedding of S3BucketProvider.uploadArtifact: put the canonical JSON at
the id key; if a tag is given, create the tag object as a CopyObject from the
id key (a copy of the already-written bytes, not an independent upload); then
archive the original build info file and the additional per-contract files
under the original-content prefix. The Bool reports success; the store holds
every put issued before a failure. -/
def uploadArtifact (root project : String) (artifact : SokoArtifact)
    (tag : Option String) (buildInfoPath : String) (additionalPaths : List String)
    (fs : List (String × String)) (s : ObjectStore) : Bool × ObjectStore :=
  let idK := idKey root project artifact.id
  let s1 := putObject s idK (serializeArtifact artifact)
  let s2opt : Option ObjectStore :=
    match tag with
    | none => some s1
    | some t =>
      match getObject s1 idK with
      | some body => some (putObject s1 (tagKey root project t) body)
      | none => none
  match s2opt with
  | none => (false, s1)
  | some s2 =>
    match readFile fs buildInfoPath with
    | none => (false, s2)
    | some content =>
      let s3 := putObject s2 (originalKey root project artifact.id (sanitizePath buildInfoPath)) content
      uploadOriginals root project artifact.id additionalPaths fs s3

/-- Errors raised by the push command (CliError messages in the source). -/
inductive PushError
  | tagAlreadyExists
  | uploadFailed
deriving DecidableEq

/-- The world a push operates on: the remote store and the local store files.
The push command never touches the local files; carrying them makes that
provable rather than implicit. -/
structure World where
  remote : ObjectStore
  localFiles : List (String × String)
deriving DecidableEq

/-- Embedding of the push command from the tag-existence check on (steps 3
and 4 of push; steps 1 and 2, file location and normalization, happen before
and produce the artifact argument). With a tag and no force, an existing tag
aborts with tagAlreadyExists before uploadArtifact is invoked, leaving the
world untouched; otherwise the artifact is uploaded and the derived id (the
id field of the normalized artifact) is returned. -/
def pushCore (root : String) (artifact : SokoArtifact) (project : String)
    (tag : Option String) (force : Bool) (buildInfoPath : String)
    (additionalPaths : List String) (fs : List (String × String))
    (w : World) : Except PushError String × World :=
  let doUpload : Except PushError String × World :=
    let (okU, remote1) :=
      uploadArtifact root project artifact tag buildInfoPath additionalPaths fs w.remote
    if okU then (Except.ok artifact.id, { w with remote := remote1 })
    else (Except.error PushError.uploadFailed, { w with remote := remote1 })
  match tag with
  | none => doUpload
  | some t =>
    if hasArtifactByTag root project t w.remote && !force then
      (Except.error PushError.tagAlreadyExists, w)
    else doUpload

/-!
Local store model. The filesystem tree root/project/ids and
root/project/tags is modelled per project as two file lists in directory
enumeration order; each file carries its name (the id or tag, without the
.json extension), its content bytes, and its last-modified timestamp.
-/

/-- A file of the local store: its name (id or tag), content, and
last-modified timestamp as rendered by stat. -/
structure LocalFile where
  name : String
  content : String
  lastModifiedAt : String
deriving DecidableEq

/-- One project directory of the local store. -/
structure LocalProject where
  name : String
  idFiles : List LocalFile
  tagFiles : List LocalFile
deriving DecidableEq

/-- The local store: the project directories in enumeration order. -/
structure LocalStore where
  projects : List LocalProject
deriving DecidableEq

/-- The first project directory of a given name in a directory listing. -/
def findProjectIn : List LocalProject → String → Option LocalProject
  | [], _ => none
  | pr :: rest, p => if pr.name = p then some pr else findProjectIn rest p

/-- The project directory of a given name, if present. -/
def LocalStore.findProject (st : LocalStore) (p : String) : Option LocalProject :=
  findProjectIn st.projects p

/-- ListTags of the local storage: tag names with last-modified timestamps,
in directory enumeration order (the call is made after ensureProjectSetup,
so the project directory exists). -/
def LocalStore.listTags (st : LocalStore) (p : String) : List (String × String) :=
  match st.findProject p with
  | some pr => pr.tagFiles.map (fun f => (f.name, f.lastModifiedAt))
  | none => []

/-- ListIds of the local storage. -/
def LocalStore.listIds (st : LocalStore) (p : String) : List (String × String) :=
  match st.findProject p with
  | some pr => pr.idFiles.map (fun f => (f.name, f.lastModifiedAt))
  | none => []

/-- Overwrite-or-create semantics of fs.writeFile for a file list. -/
def setFile (files : List LocalFile) (n c ts : String) : List LocalFile :=
  if files.any (fun f => f.name = n) then
    files.map (fun f => if f.name = n then { f with content := c, lastModifiedAt := ts } else f)
  else files ++ [{ name := n, content := c, lastModifiedAt := ts }]

/-- EnsureProjectSetup: idempotent creation of the project directories. -/
def LocalStore.ensureProjectSetup (st : LocalStore) (p : String) : LocalStore :=
  if st.projects.any (fun pr => pr.name = p) then st
  else { projects := st.projects ++ [{ name := p, idFiles := [], tagFiles := [] }] }

/-- CreateArtifactByTag: write-through with overwrite semantics. -/
def LocalStore.createArtifactByTag (st : LocalStore) (p tag content ts : String) : LocalStore :=
  { projects := st.projects.map
      (fun pr => if pr.name = p then { pr with tagFiles := setFile pr.tagFiles tag content ts } else pr) }

/-- CreateArtifactById: write-through with overwrite semantics. -/
def LocalStore.createArtifactById (st : LocalStore) (p id content ts : String) : LocalStore :=
  { projects := st.projects.map
      (fun pr => if pr.name = p then { pr with idFiles := setFile pr.idFiles id content ts } else pr) }

/-- RetrieveArtifactId of the local storage: the fallback identity, a SHA-256
over the raw bytes of the tag file, hex-encoded and truncated to 12
characters. It is not the canonical per-contract-metadata id. -/
def fallbackArtifactId (content : String) : String :=
  sliceChars (sha256Hex (utf8Bytes content)) 12

/-!
Pull model. The storage provider is a view of the remote listing plus
download outcomes; local write outcomes are injected by oracles so that a
failing download-and-persist unit can be exercised. Downloads are issued
concurrently in the source and awaited with allSettled; since each unit
touches a distinct key, folding the units in list order is an equivalent
determinization.
-/

/-- The remote side a pull sees: the tag and id listings, and the outcome of
each download (none models a download failure). -/
structure RemoteView where
  tags : List String
  ids : List String
  downloadTag : String → Option String
  downloadId : String → Option String

/-- A pull environment: the remote view plus write-success oracles for the
local persists. -/
structure PullEnv where
  remote : RemoteView
  tagWriteOk : String → Bool
  idWriteOk : String → Bool

/-- User-facing errors of the pull command. -/
inductive CliError
  | localSetup
  | remoteListing
  | localListing
  | notFound (tagOrId : String)
  | unexpectedTagSettlement
  | unexpectedIdSettlement
deriving DecidableEq

/-- The return value of pull. -/
structure PullResult where
  remoteTags : List String
  remoteIds : List String
  pulledTags : List String
  pulledIds : List String
  failedTags : List String
  failedIds : List String
deriving DecidableEq

/-- Settlement of one tag download-and-persist promise: fulfilled with its
tag, rejected with a PullTagError carrying its tag, or rejected with any
other error. -/
inductive TagSettlement
  | fulfilled (tag : String)
  | rejectedPullTagError (tag : String)
  | rejectedOther
deriving DecidableEq

/-- Settlement of one id download-and-persist promise. -/
inductive IdSettlement
  | fulfilled (id : String)
  | rejectedPullIdError (id : String)
  | rejectedOther
deriving DecidableEq

/-- One step of the aggregation loop over settled tag promises: a fulfilled
settlement is recorded as pulled, a PullTagError rejection as failed by its
tag, and any other rejection raises the generic internal CliError instead of
being absorbed. -/
def tagStep (acc : Except CliError (List String × List String)) (s : TagSettlement) :
    Except CliError (List String × List String) := do
  let (pulled, failed) ← acc
  match s with
  | TagSettlement.fulfilled t => pure (pulled ++ [t], failed)
  | TagSettlement.rejectedPullTagError t => pure (pulled, failed ++ [t])
  | TagSettlement.rejectedOther => throw CliError.unexpectedTagSettlement

/-- One step of the aggregation loop over settled id promises. -/
def idStep (acc : Except CliError (List String × List String)) (s : IdSettlement) :
    Except CliError (List String × List String) := do
  let (pulled, failed) ← acc
  match s with
  | IdSettlement.fulfilled i => pure (pulled ++ [i], failed)
  | IdSettlement.rejectedPullIdError i => pure (pulled, failed ++ [i])
  | IdSettlement.rejectedOther => throw CliError.unexpectedIdSettlement

/-- Aggregation loop over the settled tag promises. -/
def aggregateTagSettlements (settlements : List TagSettlement) :
    Except CliError (List String × List String) :=
  settlements.foldl tagStep (pure ([], []))

/-- Aggregation loop over the settled id promises. -/
def aggregateIdSettlements (settlements : List IdSettlement) :
    Except CliError (List String × List String) :=
  settlements.foldl idStep (pure ([], []))

/-- Whether the download-and-persist unit of a tag succeeds. -/
def tagUnitOk (env : PullEnv) (tag : String) : Bool :=
  (env.remote.downloadTag tag).isSome && env.tagWriteOk tag

/-- Whether the download-and-persist unit of an id succeeds. -/
def idUnitOk (env : PullEnv) (id : String) : Bool :=
  (env.remote.downloadId id).isSome && env.idWriteOk id

/-- One tag unit: download the tag object, then persist it locally; either
failure rejects the promise with a PullTagError carrying the tag. -/
def runTagUnit (env : PullEnv) (project now : String) (st : LocalStore)
    (tag : String) : TagSettlement × LocalStore :=
  match env.remote.downloadTag tag with
  | none => (TagSettlement.rejectedPullTagError tag, st)
  | some content =>
    if env.tagWriteOk tag then
      (TagSettlement.fulfilled tag, st.createArtifactByTag project tag content now)
    else (TagSettlement.rejectedPullTagError tag, st)

/-- One id unit. -/
def runIdUnit (env : PullEnv) (project now : String) (st : LocalStore)
    (id : String) : IdSettlement × LocalStore :=
  match env.remote.downloadId id with
  | none => (IdSettlement.rejectedPullIdError id, st)
  | some content =>
    if env.idWriteOk id then
      (IdSettlement.fulfilled id, st.createArtifactById project id content now)
    else (IdSettlement.rejectedPullIdError id, st)

/-- All tag units, folded in list order. -/
def runTagUnits (env : PullEnv) (project now : String) :
    LocalStore → List String → List TagSettlement × LocalStore
  | st, [] => ([], st)
  | st, t :: rest =>
    let (s, st1) := runTagUnit env project now st t
    let (ss, st2) := runTagUnits env project now st1 rest
    (s :: ss, st2)

/-- All id units, folded in list order. -/
def runIdUnits (env : PullEnv) (project now : String) :
    LocalStore → List String → List IdSettlement × LocalStore
  | st, [] => ([], st)
  | st, i :: rest =>
    let (s, st1) := runIdUnit env project now st i
    let (ss, st2) := runIdUnits env project now st1 rest
    (s :: ss, st2)

/-- Selector resolution of pull (step 2): a given selector must match a
remote tag (checked first) or a remote id; a miss on both aborts with the
not-found CliError; no selector selects everything. -/
def pullSelection (remoteTags remoteIds : List String) (tagOrId : Option String) :
    Except CliError (List String × List String) :=
  match tagOrId with
  | some s =>
    if s ∈ remoteTags then Except.ok ([s], [])
    else if s ∈ remoteIds then Except.ok ([], [s])
    else Except.error (CliError.notFound s)
  | none => Except.ok (remoteTags, remoteIds)

/-- Local-presence filter of pull (step 3): unless forced, drop the tags and
ids whose files already exist locally; the check is by name presence only,
with no content comparison. -/
def pullFilter (st : LocalStore) (project : String) (force : Bool)
    (sel : List String × List String) : List String × List String :=
  if force then sel
  else
    let localTags := (st.listTags project).map Prod.fst
    let localIds := (st.listIds project).map Prod.fst
    (sel.1.filter (fun t => t ∉ localTags), sel.2.filter (fun i => i ∉ localIds))

/-- Embedding of the pull command: ensure the project directories, list the
remote tags and ids, resolve the selector, filter by local presence unless
forced, run the download-and-persist units, and aggregate their settlements
into pulled and failed lists (an empty filtered set short-circuits into an
all-empty result). The model assumes the store listings themselves respond
(listing failures raise CliErrors in the source before any download). -/
def pull (project : String) (tagOrId : Option String) (env : PullEnv)
    (st : LocalStore) (force : Bool) (now : String) :
    Except CliError (PullResult × LocalStore) := do
  let st0 := st.ensureProjectSetup project
  let remoteTags := env.remote.tags
  let remoteIds := env.remote.ids
  let sel ← pullSelection remoteTags remoteIds tagOrId
  let (filteredTags, filteredIds) := pullFilter st0 project force sel
  if filteredTags.isEmpty && filteredIds.isEmpty then
    pure ({ remoteTags := remoteTags, remoteIds := remoteIds,
            pulledTags := [], pulledIds := [], failedTags := [], failedIds := [] }, st0)
  else do
    let (tagSettlements, st1) := runTagUnits env project now st0 filteredTags
    let (idSettlements, st2) := runIdUnits env project now st1 filteredIds
    let (pulledTags, failedTags) ← aggregateTagSettlements tagSettlements
    let (pulledIds, failedIds) ← aggregateIdSettlements idSettlements
    pure ({ remoteTags := remoteTags, remoteIds := remoteIds,
            pulledTags := pulledTags, pulledIds := pulledIds,
            failedTags := failedTags, failedIds := failedIds }, st2)

/-!
Listing model, embedding listPulledArtifacts. The source keeps one
idsAlreadyVisited set for the whole run; the tag rows of a project record the
fallback content-hash id of each tag file into it, and the id rows of every
project are skipped when their id is already in it.
-/

/-- One row of the list command. -/
structure ArtifactItem where
  project : String
  id : String
  tag : Option String
  lastModifiedAt : String
deriving DecidableEq

/-- The id loop body of listPulledArtifacts: an id file already visited is
skipped; otherwise an ID-only row (tag null) is pushed and the id is
recorded as visited. -/
def listIdStep (prName : String) (s : List ArtifactItem × List String) (f : LocalFile) :
    List ArtifactItem × List String :=
  if f.name ∈ s.2 then s
  else (s.1 ++ [ArtifactItem.mk prName f.name none f.lastModifiedAt], s.2 ++ [f.name])

/-- Processing of one project by listPulledArtifacts: a row per tag file
carrying the fallback content-hash id of its bytes (each recorded as
visited), then a row per id file whose name is not yet visited (each then
recorded as visited). The accumulator carries the rows and the visited set of
the whole run. -/
def processProject (acc : List ArtifactItem × List String) (pr : LocalProject) :
    List ArtifactItem × List String :=
  let tagRows := pr.tagFiles.map
    (fun f => ArtifactItem.mk pr.name (fallbackArtifactId f.content) (some f.name) f.lastModifiedAt)
  let visited1 := acc.2 ++ pr.tagFiles.map (fun f => fallbackArtifactId f.content)
  let (idRows, visited2) := pr.idFiles.foldl (listIdStep pr.name) ([], visited1)
  (acc.1 ++ tagRows ++ idRows, visited2)

/-- Embedding of listPulledArtifacts: every project of the local store is
processed in enumeration order against one shared visited set. -/
def listPulledArtifacts (st : LocalStore) : List ArtifactItem :=
  (st.projects.foldl processProject ([], [])).1

/-- Whether a tag of a project points to an id: the tag file exists and its
bytes equal the bytes of the id file of that id in the same project (tags are
created as copies of id objects, so pointing is byte equality). -/
def tagPointsToId (st : LocalStore) (p tag id : String) : Bool :=
  match st.findProject p with
  | none => false
  | some pr =>
    pr.tagFiles.any (fun tf =>
      tf.name = tag && pr.idFiles.any (fun idf => idf.name = id && idf.content = tf.content))

/-!
Forge default (scattered) format reconstruction, embedding
forgeDefaultBuildInfoToSokoArtifact. The filesystem scan yields a sequence of
candidate per-contract JSON files; each is either unparsable (skipped with a
diagnostic) or a parsed ForgeCompilerContractOutput. The manifest is the
build info file: an id and the source-id-to-path record.
-/

/-- A Forge default build info manifest (ForgeCompilerDefaultOutputSchema). -/
structure ForgeManifest where
  id : String
  sourceIdToPath : List (String × String)
  language : String
deriving DecidableEq

/-- A parsed per-contract Forge output file
(ForgeCompilerContractOutputSchema), flattened: the fields of the nested
metadata object the reconstruction reads are lifted to the top level. -/
structure ForgeContractOutput where
  abi : String
  bytecode : String
  deployedBytecode : String
  methodIdentifiers : Option String
  rawMetadata : String
  compilerVersion : String
  language : String
  compilationTarget : List (String × String)
  libraries : List (String × String)
  sources : List (String × String)
  remappings : Option String
  optimizer : Option String
  evmVersion : Option String
  eofVersion : Option String
  viaIR : Option String
  metadataSettings : Option String
  userdoc : Option String
  devdoc : Option String
  contractId : Nat
deriving DecidableEq

/-- Set-insertion into a list representing a JavaScript Set: append if the
element is not yet present. -/
def insertDistinct (l : List String) (x : String) : List String :=
  if x ∈ l then l else l ++ [x]

/-- Overwrite-or-append of a key in an association list, the model of a
JavaScript object property assignment (insertion order preserved). -/
def setAssoc {α : Type} (m : List (String × α)) (k : String) (v : α) : List (String × α) :=
  if m.any (fun e => e.1 = k) then m.map (fun e => if e.1 = k then (k, v) else e)
  else m ++ [(k, v)]

/-- Property lookup in an association list. -/
def getAssoc {α : Type} (m : List (String × α)) (k : String) : Option α :=
  match m with
  | [] => none
  | (k0, v0) :: rest => if k0 = k then some v0 else getAssoc rest k

/-- Assignment into a two-level nested association list, the model of
obj[k1][k2] = v after ensuring obj[k1] exists. -/
def setNested {α : Type} (m : List (String × List (String × α))) (k1 k2 : String) (v : α) :
    List (String × List (String × α)) :=
  match getAssoc m k1 with
  | none => m ++ [(k1, [(k2, v)])]
  | some inner => setAssoc m k1 (setAssoc inner k2 v)

/-- The accumulator of the reconstruction loop. -/
structure ForgeAccum where
  additionalArtifactsPaths : List String
  solcLongVersion : Option String
  inputLanguage : Option String
  inputSettings : Option SolcSettings
  inputLibraries : List (String × List (String × String))
  inputSources : List (String × String)
  outputContracts : List (String × List (String × SolcContractOutput))
  exploredContractPaths : List String
deriving DecidableEq

/-- The empty accumulator. -/
def initForgeAccum : ForgeAccum :=
  { additionalArtifactsPaths := [], solcLongVersion := none, inputLanguage := none,
    inputSettings := none, inputLibraries := [], inputSources := [],
    outputContracts := [], exploredContractPaths := [] }

/-- Re-keying of one contract library map: each fully-qualified
"file:library" key of the metadata representation is split on the colon and
merged into the nested file-then-library canonical representation; keys whose
file or library part is missing or empty are skipped. -/
def mergeLibraries (acc : List (String × List (String × String)))
    (libs : List (String × String)) : List (String × List (String × String)) :=
  libs.foldl
    (fun m e =>
      let parts := e.1.splitOn ":"
      let filePath := parts.getD 0 ""
      let libraryName := parts.getD 1 ""
      if filePath = "" || libraryName = "" then m
      else
        match getAssoc m filePath with
        | none => m ++ [(filePath, [(libraryName, e.2)])]
        | some inner => setAssoc m filePath (setAssoc inner libraryName e.2))
    acc

/-- The canonical contract output assembled from one scattered Forge
per-contract file: the raw metadata string becomes the metadata field, and
fields the format does not emit are explicitly absent. -/
def forgeContractToSolcContract (c : ForgeContractOutput) : SolcContractOutput :=
  { abi := c.abi
    metadata := c.rawMetadata
    userdoc := c.userdoc
    devdoc := c.devdoc
    ir := none
    irAst := none
    irOptimized := none
    irOptimizedAst := none
    storageLayout := none
    transientStorageLayout := none
    evm :=
      { assembly := none
        legacyAssembly := none
        bytecode := c.bytecode
        deployedBytecode := c.deployedBytecode
        methodIdentifiers := c.methodIdentifiers
        gasEstimates := none } }

/-- One iteration of the reconstruction loop over a scanned file: record the
path; skip unparsable files; skip files whose compilation target does not
name exactly one pair; otherwise take first-seen compiler version, language
and settings, merge libraries and sources, fill the nested output contracts,
and record the discovered source path. -/
def forgeStep (acc : ForgeAccum) (file : String × Option ForgeContractOutput) : ForgeAccum :=
  let acc := { acc with additionalArtifactsPaths := acc.additionalArtifactsPaths ++ [file.1] }
  match file.2 with
  | none => acc
  | some c =>
    let acc := match acc.solcLongVersion with
      | none => { acc with solcLongVersion := some c.compilerVersion }
      | some _ => acc
    match c.compilationTarget with
    | [(contractPath, contractName)] =>
      let acc := match acc.inputLanguage with
        | none => { acc with inputLanguage := some c.language }
        | some _ => acc
      let firstSeenSettings : SolcSettings :=
        { remappings := c.remappings, optimizer := c.optimizer,
          evmVersion := c.evmVersion, eofVersion := c.eofVersion,
          viaIR := c.viaIR, metadata := c.metadataSettings,
          outputSelection := none, modelChecker := none, libraries := none }
      let acc := match acc.inputSettings with
        | none => { acc with inputSettings := some firstSeenSettings }
        | some _ => acc
      let acc := { acc with inputLibraries := mergeLibraries acc.inputLibraries c.libraries }
      let mergedSources := c.sources.foldl (fun m e => setAssoc m e.1 e.2) acc.inputSources
      let acc := { acc with inputSources := mergedSources }
      let filledContracts :=
        setNested acc.outputContracts contractPath contractName (forgeContractToSolcContract c)
      let acc := { acc with outputContracts := filledContracts }
      { acc with exploredContractPaths := insertDistinct acc.exploredContractPaths contractPath }
    | _ => acc

/-- Check of an Except result for success. -/
def exceptOk {ε α : Type} (e : Except ε α) : Bool :=
  match e with
  | Except.ok _ => true
  | Except.error _ => false

/-- Embedding of forgeDefaultBuildInfoToSokoArtifact: compute the set of
distinct source paths declared by the manifest (empty is a hard error), fold
the reconstruction loop over the scanned per-contract files, and fail hard
when the count of distinct discovered source paths differs from the count of
distinct declared paths; otherwise assemble the canonical artifact and the
list of scanned file paths. -/
def forgeDefaultBuildInfoToSokoArtifact (manifest : ForgeManifest)
    (scannedFiles : List (String × Option ForgeContractOutput)) :
    Except String (SokoArtifact × List String) :=
  let expectedContractPaths := (manifest.sourceIdToPath.map Prod.snd).foldl insertDistinct []
  if expectedContractPaths.length = 0 then Except.error "Empty build info file"
  else
    let acc := scannedFiles.foldl forgeStep initForgeAccum
    if acc.exploredContractPaths.length ≠ expectedContractPaths.length then
      Except.error "The number of explored contract paths does not match the number of expected contract paths"
    else
      let settings := acc.inputSettings.getD
        { remappings := none, optimizer := none, evmVersion := none, eofVersion := none,
          viaIR := none, metadata := none, outputSelection := none, modelChecker := none,
          libraries := none }
      let output : SolcJsonOutput :=
        { errors := none, sources := none, contracts := acc.outputContracts }
      Except.ok
        ({ id := deriveSokoArtifactId output
           originId := manifest.id
           originFormat := forgeDefaultFormat
           solcLongVersion := acc.solcLongVersion.getD ""
           input :=
             { language := acc.inputLanguage.getD ""
               sources := acc.inputSources
               settings := { settings with libraries := some acc.inputLibraries } }
           output := output },
         acc.additionalArtifactsPaths)

/-!
Concrete example inputs used to instantiate the theorems on closed data.
-/

/-- Example compiler settings. -/
def exSettings : SolcSettings :=
  { remappings := none, optimizer := none, evmVersion := none, eofVersion := none,
    viaIR := none, metadata := none, outputSelection := none, modelChecker := none,
    libraries := none }

/-- Example EVM output section. -/
def exEvm : SolcEvmOutput :=
  { assembly := none, legacyAssembly := none, bytecode := "0x6001", deployedBytecode := "0x6002",
    methodIdentifiers := none, gasEstimates := none }

/-- Example contract output with a given metadata string. -/
def exContract (meta : String) : SolcContractOutput :=
  { abi := "[]", metadata := meta, userdoc := none, devdoc := none, ir := none,
    irAst := none, irOptimized := none, irOptimizedAst := none, storageLayout := none,
    transientStorageLayout := none, evm := exEvm }

/-- Example compiler input. -/
def exInput : SolcInput :=
  { language := "Solidity", sources := [("a.sol", "src")], settings := exSettings }

/-- Example single-contract output with metadata M. -/
def exOutputM : SolcJsonOutput :=
  { errors := none, sources := none, contracts := [("a.sol", [("A", exContract "M")])] }

/-- Example single-contract output with metadata N. -/
def exOutputN : SolcJsonOutput :=
  { errors := none, sources := none, contracts := [("a.sol", [("A", exContract "N")])] }

/-- Example Hardhat build info holding the single-contract output M. -/
def exHardhatM : HardhatBuildInfo :=
  { id := "buildM", solcVersion := none, solcLongVersion := "0.8.33+commit.abc",
    input := exInput, output := exOutputM }

/-- Example Hardhat build info holding the single-contract output N. -/
def exHardhatN : HardhatBuildInfo :=
  { id := "buildN", solcVersion := none, solcLongVersion := "0.8.33+commit.abc",
    input := exInput, output := exOutputN }

/-- Hardhat build info whose contracts enumerate as B then A. -/
def exHardhatBA : HardhatBuildInfo :=
  { id := "buildBA", solcVersion := none, solcLongVersion := "0.8.33+commit.abc",
    input := exInput,
    output := { errors := none, sources := none,
                contracts := [("a.sol", [("B", exContract "b"), ("A", exContract "a")])] } }

/-- Forge build info (build-info option) whose contracts enumerate as A then
B: the same contract set as exHardhatBA, in the other order. -/
def exForgeAB : ForgeBuildInfoWithOption :=
  { id := "forgeAB", sourceIdToPath := [("0", "a.sol")], language := "Solidity",
    input := exInput,
    output := { errors := none, sources := none,
                contracts := [("a.sol", [("A", exContract "a"), ("B", exContract "b")])] },
    solcLongVersion := "0.8.33+commit.abc", solcVersion := none }

/-- Forge build info (build-info option) with the same contract enumeration
as exHardhatBA. -/
def exForgeBA : ForgeBuildInfoWithOption :=
  { id := "forgeBA", sourceIdToPath := [("0", "a.sol")], language := "Solidity",
    input := exInput,
    output := { errors := none, sources := none,
                contracts := [("a.sol", [("B", exContract "b"), ("A", exContract "a")])] },
    solcLongVersion := "0.8.33+commit.abc", solcVersion := none }

/-- Example filesystem holding the build info file read back during upload. -/
def exPushFs : List (String × String) := [("out/build-info/b.json", "rawbuildinfo")]

/-- An empty world. -/
def exWorld0 : World := { remote := [], localFiles := [] }

/-- A world whose remote store already has the tag v1 of project proj under
the default projects root. -/
def exWorldTagged : World :=
  { remote := [(tagKey "projects" "proj" "v1", "already-there")], localFiles := [] }

/-- The artifact normalized from exHardhatM. -/
def exA1 : SokoArtifact := mapHardhatBuildInfoToSokoArtifact exHardhatM

/-- The artifact normalized from exHardhatN. -/
def exA2 : SokoArtifact := mapHardhatBuildInfoToSokoArtifact exHardhatN

/-- First example push: exA1 under tag v1 onto the empty world. -/
def exPush1 : Except PushError String × World :=
  pushCore "projects" exA1 "proj" (some "v1") false "out/build-info/b.json" [] exPushFs exWorld0

/-- The world after the first example push. -/
def exWorldAfter1 : World := exPush1.2

/-- Second example push: exA2 force-pushed under the same tag v1. -/
def exPush2 : Except PushError String × World :=
  pushCore "projects" exA2 "proj" (some "v1") true "out/build-info/b.json" [] exPushFs exWorldAfter1

/-- The world after the second example push. -/
def exWorldAfter2 : World := exPush2.2

/-- A pull environment where tag t2 fails to download and everything else
succeeds. -/
def exPullEnv : PullEnv :=
  { remote :=
      { tags := ["t1", "t2"], ids := ["i1"],
        downloadTag := fun t => if t = "t1" then some "c1" else none,
        downloadId := fun i => if i = "i1" then some "c3" else none },
    tagWriteOk := fun _ => true,
    idWriteOk := fun _ => true }

/-- A pull environment where every download and persist succeeds. -/
def exPullEnvOk : PullEnv :=
  { remote :=
      { tags := ["t1", "t2"], ids := ["i1"],
        downloadTag := fun t => if t = "t1" then some "c1" else if t = "t2" then some "c2" else none,
        downloadId := fun i => if i = "i1" then some "c3" else none },
    tagWriteOk := fun _ => true,
    idWriteOk := fun _ => true }

/-- An empty local store. -/
def exStore0 : LocalStore := { projects := [] }

/-- Example Forge manifest declaring two distinct source paths. -/
def exManifest2 : ForgeManifest :=
  { id := "m2", sourceIdToPath := [("0", "a.sol"), ("1", "b.sol")], language := "Solidity" }

/-- Example Forge manifest declaring one source path. -/
def exManifest1 : ForgeManifest :=
  { id := "m1", sourceIdToPath := [("0", "a.sol")], language := "Solidity" }

/-- A parsed per-contract Forge output for contract A of a.sol with raw
metadata a. -/
def exForgeContractA : ForgeContractOutput :=
  { abi := "[]", bytecode := "0x6001", deployedBytecode := "0x6002",
    methodIdentifiers := none, rawMetadata := "a", compilerVersion := "0.8.33+commit.abc",
    language := "Solidity", compilationTarget := [("a.sol", "A")], libraries := [],
    sources := [("a.sol", "src")], remappings := none, optimizer := none,
    evmVersion := none, eofVersion := none, viaIR := none, metadataSettings := none,
    userdoc := none, devdoc := none, contractId := 0 }

/-- A scan that discovered only the single contract file of a.sol. -/
def exScanA : List (String × Option ForgeContractOutput) :=
  [("out/a.sol/A.json", some exForgeContractA)]

/-- Hardhat build info whose single contract carries raw metadata a, the
same metadata sequence as the reconstruction of exScanA. -/
def exHardhatA : HardhatBuildInfo :=
  { id := "buildA", solcVersion := none, solcLongVersion := "0.8.33+commit.abc",
    input := exInput,
    output := { errors := none, sources := none,
                contracts := [("a.sol", [("A", exContract "a")])] } }

/-- A local store exercising the listing: project p has one tag file v1 that
is a byte copy of the id file bbbbbbbbbbbb. -/
def exProjC9 : LocalProject :=
  { name := "p",
    idFiles := [{ name := "bbbbbbbbbbbb", content := "content", lastModifiedAt := "t1" }],
    tagFiles := [{ name := "v1", content := "content", lastModifiedAt := "t1" }] }

/-- The local store holding exactly the project exProjC9. -/
def exStoreC9 : LocalStore := { projects := [exProjC9] }

/-- The result of pulling everything from exPullEnv into the empty store. -/
def exPullRes : PullResult :=
  { remoteTags := ["t1", "t2"], remoteIds := ["i1"], pulledTags := ["t1"],
    pulledIds := ["i1"], failedTags := ["t2"], failedIds := [] }

/-- The local store after pulling everything from exPullEnv into the empty
store. -/
def exPullStore1 : LocalStore :=
  { projects := [{ name := "proj",
                   idFiles := [{ name := "i1", content := "c3", lastModifiedAt := "now" }],
                   tagFiles := [{ name := "t1", content := "c1", lastModifiedAt := "now" }] }] }

/-- The result of pulling everything from exPullEnvOk into the empty store. -/
def exC7Res1 : PullResult :=
  { remoteTags := ["t1", "t2"], remoteIds := ["i1"], pulledTags := ["t1", "t2"],
    pulledIds := ["i1"], failedTags := [], failedIds := [] }

/-- The local store after pulling everything from exPullEnvOk into the empty
store. -/
def exC7Store1 : LocalStore :=
  { projects := [{ name := "proj",
                   idFiles := [{ name := "i1", content := "c3", lastModifiedAt := "now" }],
                   tagFiles := [{ name := "t1", content := "c1", lastModifiedAt := "now" },
                                { name := "t2", content := "c2", lastModifiedAt := "now" }] }] }

/-- An output with no contracts at all. -/
def exEmptyOutput : SolcJsonOutput := { errors := none, sources := none, contracts := [] }

/-- The artifact reconstructed from the example scattered scan (with the
normalization of exHardhatA as an unreachable fallback for the error case). -/
def exReconArtifact : SokoArtifact :=
  match forgeDefaultBuildInfoToSokoArtifact exManifest1 exScanA with
  | Except.ok (a, _) => a
  | Except.error _ => mapHardhatBuildInfoToSokoArtifact exHardhatA

/-- The per-contract file paths recorded by the example scattered
reconstruction. -/
def exReconPaths : List String :=
  match forgeDefaultBuildInfoToSokoArtifact exManifest1 exScanA with
  | Except.ok (_, ps) => ps
  | Except.error _ => []

/-- The single-contract output M with every ignored field varied relative to
exOutputM: same metadata sequence, different everything else. -/
def exOutputMvaried : SolcJsonOutput :=
  { errors := some "warn", sources := some "srcs",
    contracts := [("a.sol",
      [("A", { abi := "[1]", metadata := "M", userdoc := some "u", devdoc := some "d",
               ir := some "ir", irAst := some "irAst", irOptimized := some "iro",
               irOptimizedAst := some "iroa", storageLayout := some "sl",
               transientStorageLayout := some "tsl",
               evm := { assembly := some "asm", legacyAssembly := some "lasm",
                        bytecode := "0xdead", deployedBytecode := "0xbeef",
                        methodIdentifiers := some "mi", gasEstimates := some "ge" } })])] }

/-- Decidable equality on Except results, for evaluating concrete
reconstruction outcomes. -/
instance exceptDecEq {e a : Type} [DecidableEq e] [DecidableEq a] :
    DecidableEq (Except e a) := fun x y =>
  match x, y with
  | Except.ok v, Except.ok w =>
    if h : v = w then isTrue (by rw [h])
    else isFalse (fun hc => h (by cases hc; rfl))
  | Except.error v, Except.error w =>
    if h : v = w then isTrue (by rw [h])
    else isFalse (fun hc => h (by cases hc; rfl))
  | Except.ok _, Except.error _ => isFalse (fun hc => Except.noConfusion hc)
  | Except.error _, Except.ok _ => isFalse (fun hc => Except.noConfusion hc)

/-!
Helper lemmas about the identity deriver.
-/

/-- Binding a failed Except short-circuits. -/
theorem except_error_bind {e a b : Type} (x : e) (f : a → Except e b) :
    (Except.error x >>= f) = (Except.error x : Except e b) := rfl


/-- Folding the byte accumulation over strings distributes over a change of
initial accumulator. -/
theorem concatUtf8_foldr_acc (l : List String) (x : List Nat) :
    l.foldr (fun s r => utf8Bytes s ++ r) x = concatUtf8 l ++ x := by
  induction l with
  | nil => simp [concatUtf8]
  | cons s rest ih => simp [concatUtf8, ih, List.append_assoc]

/-- The inner contract loop of the deriver feeds exactly the concatenated
UTF-8 bytes of the metadata strings of its record. -/
theorem inner_fold_hashUpdate (cs : List (String × SolcContractOutput)) (acc : List Nat) :
    cs.foldl (fun a2 c => hashUpdate a2 c.2.metadata) acc
      = acc ++ concatUtf8 (cs.map (fun c => c.2.metadata)) := by
  induction cs generalizing acc with
  | nil => simp [concatUtf8]
  | cons c rest ih =>
    rw [List.foldl_cons, ih]
    simp [hashUpdate, concatUtf8, List.append_assoc]

/-- The nested contract loops of the deriver feed exactly the concatenated
UTF-8 bytes of the metadata sequence. -/
theorem fedBytes_eq (contracts : List (String × List (String × SolcContractOutput))) (acc : List Nat) :
    contracts.foldl (fun a fc => fc.2.foldl (fun a2 c => hashUpdate a2 c.2.metadata) a) acc
      = acc ++ concatUtf8 ((contracts.map (fun fc => fc.2.map (fun c => c.2.metadata))).foldr (· ++ ·) []) := by
  induction contracts generalizing acc with
  | nil => simp [concatUtf8]
  | cons fc rest ih =>
    simp only [List.foldl_cons, List.map_cons, List.foldr_cons]
    rw [inner_fold_hashUpdate, ih]
    have hsplit : concatUtf8 ((fc.2.map fun c => c.2.metadata) ++
        (rest.map (fun fc2 => fc2.2.map fun c => c.2.metadata)).foldr (· ++ ·) [])
        = concatUtf8 (fc.2.map fun c => c.2.metadata) ++
          concatUtf8 ((rest.map (fun fc2 => fc2.2.map fun c => c.2.metadata)).foldr (· ++ ·) []) := by
      simp only [concatUtf8, List.foldr_append]
      rw [concatUtf8_foldr_acc]
      rfl
    rw [hsplit, List.append_assoc]

/-- The derived id is the truncated hex digest of the concatenated metadata
bytes. -/
theorem derive_eq_concat (o : SolcJsonOutput) :
    deriveSokoArtifactId o = sliceChars (sha256Hex (concatUtf8 (metadataSequence o))) 12 := by
  unfold deriveSokoArtifactId metadataSequence
  rw [fedBytes_eq]
  simp

/-- A successful scattered reconstruction stamps the artifact with the id
derived from its own assembled output. -/
theorem forgeDefault_ok_id (m : ForgeManifest) (files : List (String × Option ForgeContractOutput))
    (a : SokoArtifact) (ps : List String)
    (h : forgeDefaultBuildInfoToSokoArtifact m files = Except.ok (a, ps)) :
    a.id = deriveSokoArtifactId a.output := by
  simp only [forgeDefaultBuildInfoToSokoArtifact] at h
  split at h
  · exact absurd h (by simp)
  · split at h
    · exact absurd h (by simp)
    · simp only [Except.ok.injEq, Prod.mk.injEq] at h
      obtain ⟨ha, _⟩ := h
      rw [← ha]

/-- Claim C1: the derived artifact id is the first 12 characters of the
lowercase hex SHA-256 digest of the per-contract raw metadata strings fed in
enumeration order; and a push of an artifact whose output holds exactly one
contract with metadata M, with no tag, returns sha256(M) truncated to 12 hex
characters. -/
theorem claim_C1 :
    (∀ o : SolcJsonOutput,
      deriveSokoArtifactId o = sliceChars (sha256Hex (concatUtf8 (metadataSequence o))) 12)
    ∧ (∀ (root project : String) (h : HardhatBuildInfo) (fp cn : String)
         (c : SolcContractOutput) (bip : String) (fs : List (String × String))
         (w : World) (content : String),
        h.output.contracts = [(fp, [(cn, c)])] →
        readFile fs bip = some content →
        (pushCore root (mapHardhatBuildInfoToSokoArtifact h) project none false bip [] fs w).1
          = Except.ok (sliceChars (sha256Hex (utf8Bytes c.metadata)) 12)) := by
  constructor
  · exact derive_eq_concat
  · intro root project h fp cn c bip fs w content hc hr
    unfold pushCore uploadArtifact uploadOriginals
    simp only [hr]
    simp [mapHardhatBuildInfoToSokoArtifact, deriveSokoArtifactId, hc, hashUpdate]

/-- Witness for C1 at concrete inputs. -/
theorem claim_C1_witness :
    deriveSokoArtifactId exOutputM
      = sliceChars (sha256Hex (concatUtf8 (metadataSequence exOutputM))) 12
    ∧ (pushCore "projects" (mapHardhatBuildInfoToSokoArtifact exHardhatM) "proj" none false
         "out/build-info/b.json" [] exPushFs exWorld0).1
        = Except.ok (sliceChars (sha256Hex (utf8Bytes "M")) 12) :=
  ⟨claim_C1.1 exOutputM,
   claim_C1.2 "projects" "proj" exHardhatM "a.sol" "A" (exContract "M")
     "out/build-info/b.json" exPushFs exWorld0 "rawbuildinfo" rfl (by decide)⟩

/-- Claim C10: the derived id depends only on the metadata sequence of the
output, and an output with no contracts derives the truncated hex SHA-256 of
the empty byte string. -/
theorem claim_C10 :
    (∀ o1 o2 : SolcJsonOutput, metadataSequence o1 = metadataSequence o2 →
      deriveSokoArtifactId o1 = deriveSokoArtifactId o2)
    ∧ (∀ o : SolcJsonOutput, o.contracts = [] → deriveSokoArtifactId o = "e3b0c44298fc") := by
  constructor
  · intro o1 o2 hseq
    rw [derive_eq_concat, derive_eq_concat, hseq]
  · intro o hc
    unfold deriveSokoArtifactId
    rw [hc]
    decide

/-- Witness for C10 at concrete inputs: every ignored field varied with the
same metadata, and the empty-contracts output. -/
theorem claim_C10_witness :
    deriveSokoArtifactId exOutputM = deriveSokoArtifactId exOutputMvaried
    ∧ deriveSokoArtifactId exEmptyOutput = "e3b0c44298fc" :=
  ⟨claim_C10.1 exOutputM exOutputMvaried (by decide), claim_C10.2 exEmptyOutput rfl⟩

/-- Claim C2 as amended: build outputs from different supported formats
normalize to the same id when they describe bytewise-identical per-contract
metadata strings in the same enumeration order (the two passthrough formats
against each other, and a passthrough format against a successful scattered
reconstruction). -/
theorem claim_C2 :
    (∀ (hb : HardhatBuildInfo) (fb : ForgeBuildInfoWithOption),
      metadataSequence hb.output = metadataSequence fb.output →
      (mapHardhatBuildInfoToSokoArtifact hb).id = (mapForgeBuildInfoToSokoArtifact fb).id)
    ∧ (∀ (hb : HardhatBuildInfo) (m : ForgeManifest)
         (files : List (String × Option ForgeContractOutput)) (a : SokoArtifact)
         (ps : List String),
        forgeDefaultBuildInfoToSokoArtifact m files = Except.ok (a, ps) →
        metadataSequence hb.output = metadataSequence a.output →
        (mapHardhatBuildInfoToSokoArtifact hb).id = a.id) := by
  constructor
  · intro hb fb hseq
    show deriveSokoArtifactId hb.output = deriveSokoArtifactId fb.output
    rw [derive_eq_concat, derive_eq_concat, hseq]
  · intro hb m files a ps hok hseq
    rw [forgeDefault_ok_id m files a ps hok]
    show deriveSokoArtifactId hb.output = deriveSokoArtifactId a.output
    rw [derive_eq_concat, derive_eq_concat, hseq]

/-- Counterexample to C2 as stated: a Hardhat output and a Forge output
describing the same contract set (same source paths, contract names and
metadata bytes) but in different enumeration orders normalize to different
ids. -/
theorem claim_C2_counterexample :
    sameContractSet exHardhatBA.output exForgeAB.output = true
    ∧ (mapHardhatBuildInfoToSokoArtifact exHardhatBA).id
        ≠ (mapForgeBuildInfoToSokoArtifact exForgeAB).id :=
  ⟨by decide, by decide⟩

/-- Witness for the amended C2 at concrete inputs. -/
theorem claim_C2_witness :
    (mapHardhatBuildInfoToSokoArtifact exHardhatBA).id
      = (mapForgeBuildInfoToSokoArtifact exForgeBA).id
    ∧ (mapHardhatBuildInfoToSokoArtifact exHardhatA).id = exReconArtifact.id :=
  ⟨claim_C2.1 exHardhatBA exForgeBA (by decide),
   claim_C2.2 exHardhatA exManifest1 exScanA exReconArtifact exReconPaths
     (by decide) (by decide)⟩

/-- Claim C8: when the count of distinct source paths discovered by the
scattered scan differs from the count of distinct source paths declared in
the manifest, the reconstruction fails hard and never returns an artifact. -/
theorem claim_C8 :
    ∀ (m : ForgeManifest) (files : List (String × Option ForgeContractOutput)),
      ((files.foldl forgeStep initForgeAccum).exploredContractPaths).length
          ≠ ((m.sourceIdToPath.map Prod.snd).foldl insertDistinct []).length →
      exceptOk (forgeDefaultBuildInfoToSokoArtifact m files) = false := by
  intro m files hne
  simp only [forgeDefaultBuildInfoToSokoArtifact]
  by_cases h0 : ((m.sourceIdToPath.map Prod.snd).foldl insertDistinct []).length = 0
  · simp [h0, exceptOk]
  · simp [h0, hne, exceptOk]

/-- Witness for C8: a manifest declaring two distinct source paths against a
scan that discovered one fails. -/
theorem claim_C8_witness :
    ((exScanA.foldl forgeStep initForgeAccum).exploredContractPaths).length
        ≠ ((exManifest2.sourceIdToPath.map Prod.snd).foldl insertDistinct []).length
    ∧ exceptOk (forgeDefaultBuildInfoToSokoArtifact exManifest2 exScanA) = false :=
  ⟨by decide, claim_C8 exManifest2 exScanA (by decide)⟩

/-- Claim C6: selector resolution of pull. A selector matching a remote tag
selects exactly that tag and no id; failing that, a selector matching a
remote id selects exactly that id and no tag; a selector matching neither
makes pull throw the not-found error; no selector selects every remote tag
and id. -/
theorem claim_C6 :
    (∀ (rt ri : List String) (s : String), s ∈ rt →
      pullSelection rt ri (some s) = Except.ok ([s], []))
    ∧ (∀ (rt ri : List String) (s : String), s ∉ rt → s ∈ ri →
      pullSelection rt ri (some s) = Except.ok ([], [s]))
    ∧ (∀ (rt ri : List String) (s : String), s ∉ rt → s ∉ ri →
      pullSelection rt ri (some s) = Except.error (CliError.notFound s))
    ∧ (∀ rt ri : List String, pullSelection rt ri none = Except.ok (rt, ri))
    ∧ (∀ (env : PullEnv) (project s : String) (st : LocalStore) (force : Bool) (now : String),
        s ∉ env.remote.tags → s ∉ env.remote.ids →
        pull project (some s) env st force now = Except.error (CliError.notFound s)) := by
  refine ⟨?_, ?_, ?_, ?_, ?_⟩
  · intro rt ri s h
    simp [pullSelection, h]
  · intro rt ri s h1 h2
    simp [pullSelection, h1, h2]
  · intro rt ri s h1 h2
    simp [pullSelection, h1, h2]
  · intro rt ri
    rfl
  · intro env project s st force now h1 h2
    simp [pull, pullSelection, h1, h2, except_error_bind]

/-- Witness for C6 at concrete inputs. -/
theorem claim_C6_witness :
    pullSelection ["t1", "t2"] ["i1"] (some "t1") = Except.ok (["t1"], [])
    ∧ pullSelection ["t1", "t2"] ["i1"] (some "i1") = Except.ok ([], ["i1"])
    ∧ pullSelection ["t1", "t2"] ["i1"] (some "zz") = Except.error (CliError.notFound "zz")
    ∧ pull "proj" (some "zz") exPullEnv exStore0 false "now"
        = Except.error (CliError.notFound "zz") :=
  ⟨claim_C6.1 _ _ _ (by decide),
   claim_C6.2.1 _ _ _ (by decide) (by decide),
   claim_C6.2.2.1 _ _ _ (by decide) (by decide),
   claim_C6.2.2.2.2 exPullEnv "proj" "zz" exStore0 false "now" (by decide) (by decide)⟩


/-!
Helper lemmas about the remote store keys: the keys written by an upload are
pairwise distinct in the ways the proofs need.
-/

/-- Strings with equal character data are equal. -/
theorem stringDataInj {a b : String} (h : a.data = b.data) : a = b := by
  cases a
  cases b
  exact congrArg String.mk h

/-- Character data of the slash literal. -/
theorem slashData : ("/" : String).data = ['/'] := rfl

/-- Character data of the ids segment literal. -/
theorem idsSegData : ("/ids/" : String).data = ['/', 'i', 'd', 's', '/'] := rfl

/-- Character data of the tags segment literal. -/
theorem tagsSegData : ("/tags/" : String).data = ['/', 't', 'a', 'g', 's', '/'] := rfl

/-- Character data of the json extension literal. -/
theorem jsonSegData : (".json" : String).data = ['.', 'j', 's', 'o', 'n'] := rfl

/-- Character data of the original-content segment literal. -/
theorem origSegData : ("/original-content/" : String).data
    = ['/', 'o', 'r', 'i', 'g', 'i', 'n', 'a', 'l', '-', 'c', 'o', 'n', 't', 'e', 'n', 't', '/'] := rfl

/-- Normal form of the character data of an id key. -/
theorem idKey_data (root p id : String) :
    (idKey root p id).data
      = root.data ++ '/' :: (p.data ++ '/' :: 'i' :: 'd' :: 's' :: '/' ::
          (id.data ++ ['.', 'j', 's', 'o', 'n'])) := by
  simp [idKey, String.data_append, slashData, idsSegData, jsonSegData, List.append_assoc]

/-- Normal form of the character data of a tag key. -/
theorem tagKey_data (root p t : String) :
    (tagKey root p t).data
      = root.data ++ '/' :: (p.data ++ '/' :: 't' :: 'a' :: 'g' :: 's' :: '/' ::
          (t.data ++ ['.', 'j', 's', 'o', 'n'])) := by
  simp [tagKey, String.data_append, slashData, tagsSegData, jsonSegData, List.append_assoc]

/-- Normal form of the character data of an original-content key. -/
theorem originalKey_data (root p id san : String) :
    (originalKey root p id san).data
      = root.data ++ '/' :: (p.data ++ '/' :: 'i' :: 'd' :: 's' :: '/' ::
          (id.data ++ '/' :: 'o' :: 'r' :: 'i' :: 'g' :: 'i' :: 'n' :: 'a' :: 'l' :: '-' ::
            'c' :: 'o' :: 'n' :: 't' :: 'e' :: 'n' :: 't' :: '/' :: san.data)) := by
  simp [originalKey, String.data_append, slashData, idsSegData, origSegData, List.append_assoc]

/-- A tag key never equals an id key. -/
theorem tagKey_ne_idKey (root p t id : String) : tagKey root p t ≠ idKey root p id := by
  intro h
  have hd := congrArg String.data h
  rw [tagKey_data, idKey_data] at hd
  have h1 := List.append_cancel_left hd
  injection h1 with _ h2
  have h3 := List.append_cancel_left h2
  injection h3 with _ h4
  injection h4 with h5 _
  exact absurd h5 (by decide)

/-- An original-content key of an id never equals the id key of the same id. -/
theorem originalKey_ne_idKey_same (root p id san : String) :
    originalKey root p id san ≠ idKey root p id := by
  intro h
  have hd := congrArg String.data h
  rw [originalKey_data, idKey_data] at hd
  have h1 := List.append_cancel_left hd
  injection h1 with _ h2
  have h3 := List.append_cancel_left h2
  injection h3 with _ h4
  injection h4 with _ h5
  injection h5 with _ h6
  injection h6 with _ h7
  injection h7 with _ h8
  have h9 := List.append_cancel_left h8
  injection h9 with h10 _
  exact absurd h10 (by decide)

/-- An original-content key never equals a tag key. -/
theorem originalKey_ne_tagKey (root p id san t : String) :
    originalKey root p id san ≠ tagKey root p t := by
  intro h
  have hd := congrArg String.data h
  rw [originalKey_data, tagKey_data] at hd
  have h1 := List.append_cancel_left hd
  injection h1 with _ h2
  have h3 := List.append_cancel_left h2
  injection h3 with _ h4
  injection h4 with h5 _
  exact absurd h5 (by decide)

/-- Id keys of distinct ids are distinct. -/
theorem idKey_inj_id (root p : String) {id1 id2 : String}
    (h : idKey root p id1 = idKey root p id2) : id1 = id2 := by
  have hd := congrArg String.data h
  rw [idKey_data, idKey_data] at hd
  have h1 := List.append_cancel_left hd
  injection h1 with _ h2
  have h3 := List.append_cancel_left h2
  injection h3 with _ h4
  injection h4 with _ h5
  injection h5 with _ h6
  injection h6 with _ h7
  injection h7 with _ h8
  exact stringDataInj (List.append_cancel_right h8)

/-- An original-content key of one id never equals the id key of a distinct
id of the same length. -/
theorem originalKey_ne_idKey_other (root p : String) {id1 id2 : String} (san : String)
    (hne : id1 ≠ id2) (hlen : id1.length = id2.length) :
    originalKey root p id2 san ≠ idKey root p id1 := by
  intro h
  have hd := congrArg String.data h
  rw [originalKey_data, idKey_data] at hd
  have h1 := List.append_cancel_left hd
  injection h1 with _ h2
  have h3 := List.append_cancel_left h2
  injection h3 with _ h4
  injection h4 with _ h5
  injection h5 with _ h6
  injection h6 with _ h7
  injection h7 with _ h8
  have hlen2 : id2.data.length = id1.data.length := hlen.symm
  have h9 := List.append_inj h8 hlen2
  exact absurd (stringDataInj h9.1).symm hne

/-!
Helper lemmas about the object store and uploadArtifact.
-/

/-- A get after a put at the same key returns the body just put. -/
theorem getObject_put_same (s : ObjectStore) (k v : String) :
    getObject (putObject s k v) k = some v := by
  simp [getObject, putObject]

/-- A get after a put at a different key is unchanged. -/
theorem getObject_put_ne (s : ObjectStore) (k v k' : String) (h : k ≠ k') :
    getObject (putObject s k v) k' = getObject s k' := by
  simp [getObject, putObject, h]

/-- Uploading originals does not disturb keys outside the original-content
prefix of the artifact. -/
theorem uploadOriginals_preserves (root p id : String) (paths : List String)
    (fs : List (String × String)) (s : ObjectStore) (k : String)
    (hk : ∀ q : String, k ≠ originalKey root p id q) :
    getObject (uploadOriginals root p id paths fs s).2 k = getObject s k := by
  induction paths generalizing s with
  | nil => rfl
  | cons q rest ih =>
    simp only [uploadOriginals]
    cases hread : readFile fs q with
    | none => rfl
    | some c =>
      rw [ih, getObject_put_ne]
      exact (hk (sanitizePath q)).symm

/-- After a successful upload with a tag, the bytes reachable through the
tag key are exactly the bytes at the id key: the serialized artifact. -/
theorem uploadArtifact_tag_bytes (root p : String) (a : SokoArtifact) (t bip : String)
    (aps : List String) (fs : List (String × String)) (s s' : ObjectStore)
    (h : uploadArtifact root p a (some t) bip aps fs s = (true, s')) :
    getObject s' (tagKey root p t) = some (serializeArtifact a)
    ∧ getObject s' (idKey root p a.id) = some (serializeArtifact a) := by
  simp only [uploadArtifact, getObject_put_same] at h
  cases hread : readFile fs bip with
  | none =>
    rw [hread] at h
    exact absurd h (by simp)
  | some content =>
    rw [hread] at h
    have h2 : uploadOriginals root p a.id aps fs
        (putObject (putObject (putObject s (idKey root p a.id) (serializeArtifact a))
          (tagKey root p t) (serializeArtifact a))
          (originalKey root p a.id (sanitizePath bip)) content) = (true, s') := h
    have hs' : (uploadOriginals root p a.id aps fs
        (putObject (putObject (putObject s (idKey root p a.id) (serializeArtifact a))
          (tagKey root p t) (serializeArtifact a))
          (originalKey root p a.id (sanitizePath bip)) content)).2 = s' := by
      rw [h2]
    constructor
    · rw [← hs', uploadOriginals_preserves]
      · rw [getObject_put_ne]
        · exact getObject_put_same _ _ _
        · exact originalKey_ne_tagKey root p a.id (sanitizePath bip) t
      · intro q
        exact (originalKey_ne_tagKey root p a.id q t).symm
    · rw [← hs', uploadOriginals_preserves]
      · rw [getObject_put_ne, getObject_put_ne]
        · exact getObject_put_same _ _ _
        · exact tagKey_ne_idKey root p t a.id
        · exact originalKey_ne_idKey_same root p a.id (sanitizePath bip)
      · intro q
        exact (originalKey_ne_idKey_same root p a.id q).symm

/-- An upload does not disturb keys distinct from the id key, the tag key
and every original-content key of the uploaded artifact. -/
theorem uploadArtifact_preserves (root p : String) (a : SokoArtifact) (tag : Option String)
    (bip : String) (aps : List String) (fs : List (String × String)) (s : ObjectStore)
    (k : String)
    (h1 : k ≠ idKey root p a.id)
    (h2 : ∀ t, tag = some t → k ≠ tagKey root p t)
    (h3 : ∀ q : String, k ≠ originalKey root p a.id q) :
    getObject (uploadArtifact root p a tag bip aps fs s).2 k = getObject s k := by
  cases tag with
  | none =>
    simp only [uploadArtifact]
    cases hread : readFile fs bip with
    | none => exact getObject_put_ne _ _ _ _ h1.symm
    | some content =>
      rw [uploadOriginals_preserves _ _ _ _ _ _ _ h3, getObject_put_ne, getObject_put_ne]
      · exact h1.symm
      · exact (h3 (sanitizePath bip)).symm
  | some t =>
    simp only [uploadArtifact, getObject_put_same]
    cases hread : readFile fs bip with
    | none =>
      rw [getObject_put_ne, getObject_put_ne]
      · exact h1.symm
      · exact (h2 t rfl).symm
    | some content =>
      rw [uploadOriginals_preserves _ _ _ _ _ _ _ h3, getObject_put_ne, getObject_put_ne,
        getObject_put_ne]
      · exact h1.symm
      · exact (h2 t rfl).symm
      · exact (h3 (sanitizePath bip)).symm

/-- A push that returns ok returned the artifact id and ran a successful
upload from the incoming remote store to the resulting one. -/
theorem pushCore_ok (root : String) (a : SokoArtifact) (p : String) (tag : Option String)
    (force : Bool) (bip : String) (aps : List String) (fs : List (String × String))
    (w : World) (r : String) (w' : World)
    (h : pushCore root a p tag force bip aps fs w = (Except.ok r, w')) :
    r = a.id ∧ uploadArtifact root p a tag bip aps fs w.remote = (true, w'.remote) := by
  cases tag with
  | none =>
    simp only [pushCore] at h
    cases hup : (uploadArtifact root p a none bip aps fs w.remote).1 with
    | false =>
      simp only [hup] at h
      simp at h
    | true =>
      simp only [hup, if_true] at h
      have h1 := congrArg Prod.fst h
      have h2 := congrArg Prod.snd h
      simp only [] at h1 h2
      injection h1 with hr
      refine ⟨hr.symm, ?_⟩
      have heta : uploadArtifact root p a none bip aps fs w.remote
          = ((uploadArtifact root p a none bip aps fs w.remote).1,
             (uploadArtifact root p a none bip aps fs w.remote).2) := rfl
      rw [heta, hup, ← h2]
  | some t =>
    simp only [pushCore] at h
    by_cases hc : (hasArtifactByTag root p t w.remote && !force) = true
    · rw [if_pos hc] at h
      simp at h
    · rw [if_neg hc] at h
      cases hup : (uploadArtifact root p a (some t) bip aps fs w.remote).1 with
      | false =>
        simp only [hup] at h
        simp at h
      | true =>
        simp only [hup, if_true] at h
        have h1 := congrArg Prod.fst h
        have h2 := congrArg Prod.snd h
        simp only [] at h1 h2
        injection h1 with hr
        refine ⟨hr.symm, ?_⟩
        have heta : uploadArtifact root p a (some t) bip aps fs w.remote
            = ((uploadArtifact root p a (some t) bip aps fs w.remote).1,
               (uploadArtifact root p a (some t) bip aps fs w.remote).2) := rfl
        rw [heta, hup, ← h2]

/-- Claim C3: with a tag present remotely and no force, push aborts with the
tag-already-exists error and leaves the world (remote and local stores)
untouched; push never changes the local files in any case; and a successful
push returns the id of the normalized artifact. -/
theorem claim_C3 :
    (∀ (root : String) (a : SokoArtifact) (project t bip : String) (aps : List String)
       (fs : List (String × String)) (w : World),
      hasArtifactByTag root project t w.remote = true →
      pushCore root a project (some t) false bip aps fs w
        = (Except.error PushError.tagAlreadyExists, w))
    ∧ (∀ (root : String) (a : SokoArtifact) (project : String) (tag : Option String)
         (force : Bool) (bip : String) (aps : List String) (fs : List (String × String))
         (w : World),
        (pushCore root a project tag force bip aps fs w).2.localFiles = w.localFiles)
    ∧ (∀ (root : String) (a : SokoArtifact) (project : String) (tag : Option String)
         (force : Bool) (bip : String) (aps : List String) (fs : List (String × String))
         (w : World) (r : String),
        (pushCore root a project tag force bip aps fs w).1 = Except.ok r → r = a.id) := by
  refine ⟨?_, ?_, ?_⟩
  · intro root a project t bip aps fs w h
    simp [pushCore, h]
  · intro root a project tag force bip aps fs w
    cases tag with
    | none =>
      simp only [pushCore]
      cases hup : (uploadArtifact root project a none bip aps fs w.remote).1 <;>
        simp [hup]
    | some t =>
      simp only [pushCore]
      by_cases hc : (hasArtifactByTag root project t w.remote && !force) = true
      · simp [hc]
      · rw [if_neg hc]
        cases hup : (uploadArtifact root project a (some t) bip aps fs w.remote).1 <;>
          simp [hup]
  · intro root a project tag force bip aps fs w r h
    have h2 : pushCore root a project tag force bip aps fs w
        = ((pushCore root a project tag force bip aps fs w).1,
           (pushCore root a project tag force bip aps fs w).2) := rfl
    rw [h] at h2
    exact (pushCore_ok root a project tag force bip aps fs w r _ h2).1

/-- Witness for C3 at concrete inputs: the tag v1 already exists remotely
and push aborts leaving the world unchanged; the successful untagged push
returns the derived id. -/
theorem claim_C3_witness :
    hasArtifactByTag "projects" "proj" "v1" exWorldTagged.remote = true
    ∧ pushCore "projects" exA1 "proj" (some "v1") false "out/build-info/b.json" [] exPushFs
        exWorldTagged = (Except.error PushError.tagAlreadyExists, exWorldTagged)
    ∧ ("08f271887ce9" : String) = exA1.id :=
  ⟨by decide,
   claim_C3.1 "projects" exA1 "proj" "v1" "out/build-info/b.json" [] exPushFs exWorldTagged
     (by decide),
   claim_C3.2.2 "projects" exA1 "proj" none false "out/build-info/b.json" [] exPushFs
     exWorld0 "08f271887ce9" (by decide)⟩

/-- Claim C4: after a successful upload with a tag, the tag object holds
exactly the bytes of the id object (both the serialized artifact); and after
pushing tag v1 and then force-pushing v1 with a different artifact, the tag
resolves to the new bytes while the old id object remains retrievable. -/
theorem claim_C4 :
    (∀ (root project : String) (a : SokoArtifact) (t bip : String) (aps : List String)
       (fs : List (String × String)) (s s' : ObjectStore),
      uploadArtifact root project a (some t) bip aps fs s = (true, s') →
      getObject s' (tagKey root project t) = getObject s' (idKey root project a.id)
      ∧ getObject s' (tagKey root project t) = some (serializeArtifact a))
    ∧ (∀ (root project : String) (a1 a2 : SokoArtifact) (bip1 bip2 : String)
         (aps1 aps2 : List String) (fs1 fs2 : List (String × String)) (w w1 w2 : World)
         (r1 r2 : String),
        a1.id ≠ a2.id → a1.id.length = a2.id.length →
        pushCore root a1 project (some "v1") false bip1 aps1 fs1 w = (Except.ok r1, w1) →
        pushCore root a2 project (some "v1") true bip2 aps2 fs2 w1 = (Except.ok r2, w2) →
        getObject w2.remote (tagKey root project "v1") = some (serializeArtifact a2)
        ∧ getObject w2.remote (idKey root project a1.id) = some (serializeArtifact a1)) := by
  constructor
  · intro root project a t bip aps fs s s' h
    obtain ⟨ht, hi⟩ := uploadArtifact_tag_bytes root project a t bip aps fs s s' h
    exact ⟨by rw [ht, hi], ht⟩
  · intro root project a1 a2 bip1 bip2 aps1 aps2 fs1 fs2 w w1 w2 r1 r2 hne hlen hp1 hp2
    obtain ⟨_, hup1⟩ := pushCore_ok root a1 project (some "v1") false bip1 aps1 fs1 w r1 w1 hp1
    obtain ⟨_, hup2⟩ := pushCore_ok root a2 project (some "v1") true bip2 aps2 fs2 w1 r2 w2 hp2
    obtain ⟨ht1, hi1⟩ := uploadArtifact_tag_bytes root project a1 "v1" bip1 aps1 fs1
      w.remote w1.remote hup1
    obtain ⟨ht2, _⟩ := uploadArtifact_tag_bytes root project a2 "v1" bip2 aps2 fs2
      w1.remote w2.remote hup2
    refine ⟨ht2, ?_⟩
    have hpres : getObject (uploadArtifact root project a2 (some "v1") bip2 aps2 fs2
        w1.remote).2 (idKey root project a1.id) = getObject w1.remote (idKey root project a1.id) := by
      apply uploadArtifact_preserves
      · intro hk
        exact hne (idKey_inj_id root project hk)
      · intro t2 ht
        cases ht
        exact (tagKey_ne_idKey root project "v1" a1.id).symm
      · intro q
        exact (originalKey_ne_idKey_other root project q hne hlen).symm
    rw [hup2] at hpres
    rw [hpres, hi1]

set_option maxRecDepth 8000 in
/-- Witness for C4: two concrete artifacts with distinct 12-character ids,
pushed to tag v1 (the second forced), leave the tag resolving to the second
artifact while the first id object stays retrievable. -/
theorem claim_C4_witness :
    exA1.id ≠ exA2.id ∧ exA1.id.length = exA2.id.length
    ∧ getObject exWorldAfter2.remote (tagKey "projects" "proj" "v1")
        = some (serializeArtifact exA2)
    ∧ getObject exWorldAfter2.remote (idKey "projects" "proj" exA1.id)
        = some (serializeArtifact exA1)
    ∧ getObject exWorldAfter1.remote (tagKey "projects" "proj" "v1")
        = getObject exWorldAfter1.remote (idKey "projects" "proj" exA1.id) := by
  have hne : exA1.id ≠ exA2.id := by decide
  have hlen : exA1.id.length = exA2.id.length := by decide
  have hp1 : pushCore "projects" exA1 "proj" (some "v1") false "out/build-info/b.json" []
      exPushFs exWorld0 = (Except.ok exA1.id, exWorldAfter1) := by decide
  have hp2 : pushCore "projects" exA2 "proj" (some "v1") true "out/build-info/b.json" []
      exPushFs exWorldAfter1 = (Except.ok exA2.id, exWorldAfter2) := by decide
  have hup1 : uploadArtifact "projects" "proj" exA1 (some "v1") "out/build-info/b.json" []
      exPushFs exWorld0.remote = (true, exWorldAfter1.remote) := by decide
  obtain ⟨hmain1, hmain2⟩ := claim_C4.2 "projects" "proj" exA1 exA2 "out/build-info/b.json"
    "out/build-info/b.json" [] [] exPushFs exPushFs exWorld0 exWorldAfter1 exWorldAfter2
    exA1.id exA2.id hne hlen hp1 hp2
  exact ⟨hne, hlen, hmain1, hmain2,
    (claim_C4.1 "projects" "proj" exA1 "v1" "out/build-info/b.json" [] exPushFs
      exWorld0.remote exWorldAfter1.remote hup1).1⟩


/-!
Helper lemmas about the pull download units and their aggregation.
-/

/-- Binding a successful Except applies the continuation. -/
theorem except_ok_bind {e a b : Type} (x : a) (f : a → Except e b) :
    (Except.ok x >>= f) = f x := rfl

/-- Equal successful Except results hold equal values. -/
theorem except_ok_of_eq {e a : Type} {x y : a}
    (h : (Except.ok x : Except e a) = Except.ok y) : x = y := by
  injection h

/-- The settlements of the tag units depend only on the unit outcomes: each
tag settles fulfilled when its download and persist succeed and rejected
with its PullTagError otherwise. -/
theorem runTagUnits_settlements (env : PullEnv) (p now : String) :
    ∀ (tags : List String) (st : LocalStore),
      (runTagUnits env p now st tags).1
        = tags.map (fun t => if tagUnitOk env t then TagSettlement.fulfilled t
                             else TagSettlement.rejectedPullTagError t) := by
  intro tags
  induction tags with
  | nil => intro st; rfl
  | cons t rest ih =>
    intro st
    simp only [runTagUnits, List.map_cons]
    cases hdl : env.remote.downloadTag t with
    | none => simp [runTagUnit, hdl, tagUnitOk, ih]
    | some c =>
      by_cases hw : env.tagWriteOk t = true
      · simp [runTagUnit, hdl, hw, tagUnitOk, ih]
      · simp [runTagUnit, hdl, hw, tagUnitOk, ih]

/-- The settlements of the id units depend only on the unit outcomes. -/
theorem runIdUnits_settlements (env : PullEnv) (p now : String) :
    ∀ (ids : List String) (st : LocalStore),
      (runIdUnits env p now st ids).1
        = ids.map (fun i => if idUnitOk env i then IdSettlement.fulfilled i
                            else IdSettlement.rejectedPullIdError i) := by
  intro ids
  induction ids with
  | nil => intro st; rfl
  | cons i rest ih =>
    intro st
    simp only [runIdUnits, List.map_cons]
    cases hdl : env.remote.downloadId i with
    | none => simp [runIdUnit, hdl, idUnitOk, ih]
    | some c =>
      by_cases hw : env.idWriteOk i = true
      · simp [runIdUnit, hdl, hw, idUnitOk, ih]
      · simp [runIdUnit, hdl, hw, idUnitOk, ih]

/-- Aggregating unit settlements partitions the keys into pulled and failed
by unit success, in order. -/
theorem aggTag_units (okf : String → Bool) :
    ∀ (l : List String) (p0 f0 : List String),
      (l.map (fun t => if okf t then TagSettlement.fulfilled t
                       else TagSettlement.rejectedPullTagError t)).foldl tagStep
          (Except.ok (p0, f0))
        = Except.ok (p0 ++ l.filter okf, f0 ++ l.filter (fun t => !(okf t))) := by
  intro l
  induction l with
  | nil => intro p0 f0; simp
  | cons t rest ih =>
    intro p0 f0
    by_cases h : okf t = true
    · simp only [List.map_cons, h, if_true, List.foldl_cons]
      rw [show tagStep (Except.ok (p0, f0)) (TagSettlement.fulfilled t)
            = Except.ok (p0 ++ [t], f0) from rfl, ih]
      simp [h, List.filter_cons]
    · have hf : okf t = false := by simpa using h
      simp only [List.map_cons, hf, Bool.false_eq_true, if_false, List.foldl_cons]
      rw [show tagStep (Except.ok (p0, f0)) (TagSettlement.rejectedPullTagError t)
            = Except.ok (p0, f0 ++ [t]) from rfl, ih]
      simp [hf, List.filter_cons]

/-- Aggregating id unit settlements partitions the keys by unit success. -/
theorem aggId_units (okf : String → Bool) :
    ∀ (l : List String) (p0 f0 : List String),
      (l.map (fun i => if okf i then IdSettlement.fulfilled i
                       else IdSettlement.rejectedPullIdError i)).foldl idStep
          (Except.ok (p0, f0))
        = Except.ok (p0 ++ l.filter okf, f0 ++ l.filter (fun i => !(okf i))) := by
  intro l
  induction l with
  | nil => intro p0 f0; simp
  | cons i rest ih =>
    intro p0 f0
    by_cases h : okf i = true
    · simp only [List.map_cons, h, if_true, List.foldl_cons]
      rw [show idStep (Except.ok (p0, f0)) (IdSettlement.fulfilled i)
            = Except.ok (p0 ++ [i], f0) from rfl, ih]
      simp [h, List.filter_cons]
    · have hf : okf i = false := by simpa using h
      simp only [List.map_cons, hf, Bool.false_eq_true, if_false, List.foldl_cons]
      rw [show idStep (Except.ok (p0, f0)) (IdSettlement.rejectedPullIdError i)
            = Except.ok (p0, f0 ++ [i]) from rfl, ih]
      simp [hf, List.filter_cons]

/-- Aggregation of the tag unit settlements from the empty accumulators. -/
theorem aggTag_units_main (okf : String → Bool) (l : List String) :
    aggregateTagSettlements (l.map (fun t => if okf t then TagSettlement.fulfilled t
        else TagSettlement.rejectedPullTagError t))
      = Except.ok (l.filter okf, l.filter (fun t => !(okf t))) := by
  unfold aggregateTagSettlements
  show List.foldl tagStep (Except.ok ([], [])) _ = _
  rw [aggTag_units okf l [] []]
  simp

/-- Aggregation of the id unit settlements from the empty accumulators. -/
theorem aggId_units_main (okf : String → Bool) (l : List String) :
    aggregateIdSettlements (l.map (fun i => if okf i then IdSettlement.fulfilled i
        else IdSettlement.rejectedPullIdError i))
      = Except.ok (l.filter okf, l.filter (fun i => !(okf i))) := by
  unfold aggregateIdSettlements
  show List.foldl idStep (Except.ok ([], [])) _ = _
  rw [aggId_units okf l [] []]
  simp

/-- A failed aggregation stays failed. -/
theorem foldl_tagStep_error (e : CliError) (l : List TagSettlement) :
    l.foldl tagStep (Except.error e) = Except.error e := by
  induction l with
  | nil => rfl
  | cons s rest ih => simpa [tagStep] using ih

/-- A failed id aggregation stays failed. -/
theorem foldl_idStep_error (e : CliError) (l : List IdSettlement) :
    l.foldl idStep (Except.error e) = Except.error e := by
  induction l with
  | nil => rfl
  | cons s rest ih => simpa [idStep] using ih

/-- The tag aggregation throws exactly when some settlement is a rejection
with an unexpected error. -/
theorem aggTag_error_iff :
    ∀ (l : List TagSettlement) (p0 f0 : List String),
      exceptOk (l.foldl tagStep (Except.ok (p0, f0))) = false
        ↔ TagSettlement.rejectedOther ∈ l := by
  intro l
  induction l with
  | nil => intro p0 f0; simp [exceptOk]
  | cons s rest ih =>
    intro p0 f0
    cases s with
    | fulfilled t =>
      rw [show (TagSettlement.fulfilled t :: rest).foldl tagStep (Except.ok (p0, f0))
            = rest.foldl tagStep (Except.ok (p0 ++ [t], f0)) from rfl]
      simp [ih]
    | rejectedPullTagError t =>
      rw [show (TagSettlement.rejectedPullTagError t :: rest).foldl tagStep (Except.ok (p0, f0))
            = rest.foldl tagStep (Except.ok (p0, f0 ++ [t])) from rfl]
      simp [ih]
    | rejectedOther =>
      rw [show (TagSettlement.rejectedOther :: rest).foldl tagStep (Except.ok (p0, f0))
            = rest.foldl tagStep (Except.error CliError.unexpectedTagSettlement) from rfl,
        foldl_tagStep_error]
      simp [exceptOk]

/-- The id aggregation throws exactly when some settlement is a rejection
with an unexpected error. -/
theorem aggId_error_iff :
    ∀ (l : List IdSettlement) (p0 f0 : List String),
      exceptOk (l.foldl idStep (Except.ok (p0, f0))) = false
        ↔ IdSettlement.rejectedOther ∈ l := by
  intro l
  induction l with
  | nil => intro p0 f0; simp [exceptOk]
  | cons s rest ih =>
    intro p0 f0
    cases s with
    | fulfilled i =>
      rw [show (IdSettlement.fulfilled i :: rest).foldl idStep (Except.ok (p0, f0))
            = rest.foldl idStep (Except.ok (p0 ++ [i], f0)) from rfl]
      simp [ih]
    | rejectedPullIdError i =>
      rw [show (IdSettlement.rejectedPullIdError i :: rest).foldl idStep (Except.ok (p0, f0))
            = rest.foldl idStep (Except.ok (p0, f0 ++ [i])) from rfl]
      simp [ih]
    | rejectedOther =>
      rw [show (IdSettlement.rejectedOther :: rest).foldl idStep (Except.ok (p0, f0))
            = rest.foldl idStep (Except.error CliError.unexpectedIdSettlement) from rfl,
        foldl_idStep_error]
      simp [exceptOk]

/-- Characterization of a successful pull: the remote listings are echoed,
and the pulled and failed lists are the unit-success and unit-failure
partitions of the locally-filtered selection. -/
theorem pull_ok_char (project : String) (tagOrId : Option String) (env : PullEnv)
    (st : LocalStore) (force : Bool) (now : String) (res : PullResult) (st' : LocalStore)
    (selTags selIds : List String)
    (hsel : pullSelection env.remote.tags env.remote.ids tagOrId = Except.ok (selTags, selIds))
    (h : pull project tagOrId env st force now = Except.ok (res, st')) :
    res.remoteTags = env.remote.tags ∧ res.remoteIds = env.remote.ids
    ∧ res.pulledTags = (pullFilter (st.ensureProjectSetup project) project force
        (selTags, selIds)).1.filter (fun t => tagUnitOk env t)
    ∧ res.failedTags = (pullFilter (st.ensureProjectSetup project) project force
        (selTags, selIds)).1.filter (fun t => !(tagUnitOk env t))
    ∧ res.pulledIds = (pullFilter (st.ensureProjectSetup project) project force
        (selTags, selIds)).2.filter (fun i => idUnitOk env i)
    ∧ res.failedIds = (pullFilter (st.ensureProjectSetup project) project force
        (selTags, selIds)).2.filter (fun i => !(idUnitOk env i))
    ∧ st' = (runIdUnits env project now
        (runTagUnits env project now (st.ensureProjectSetup project)
          (pullFilter (st.ensureProjectSetup project) project force (selTags, selIds)).1).2
        (pullFilter (st.ensureProjectSetup project) project force (selTags, selIds)).2).2 := by
  simp only [pull, hsel, except_ok_bind] at h
  by_cases hempty : ((pullFilter (st.ensureProjectSetup project) project force
      (selTags, selIds)).1.isEmpty
      && (pullFilter (st.ensureProjectSetup project) project force (selTags, selIds)).2.isEmpty)
      = true
  · rw [if_pos hempty] at h
    simp only [Bool.and_eq_true, List.isEmpty_iff] at hempty
    obtain ⟨he1, he2⟩ := hempty
    have hpair := except_ok_of_eq h
    rw [Prod.mk.injEq] at hpair
    obtain ⟨h1, h2⟩ := hpair
    rw [← h1, ← h2]
    simp [he1, he2, runTagUnits, runIdUnits]
  · rw [if_neg hempty] at h
    rw [runTagUnits_settlements, runIdUnits_settlements] at h
    rw [aggTag_units_main (tagUnitOk env), aggId_units_main (idUnitOk env)] at h
    simp only [except_ok_bind] at h
    have hpair := except_ok_of_eq h
    rw [Prod.mk.injEq] at hpair
    obtain ⟨h1, h2⟩ := hpair
    rw [← h1, ← h2]
    simp

/-- Claim C5: every key of the filtered selection ends up in exactly one of
the pulled and failed lists (the unit-success partition), one unit failing
never removes another from the pulled list; the aggregation loops throw only
when a settlement carries an unexpected error, and the download units only
ever produce the expected per-unit errors. -/
theorem claim_C5 :
    (∀ (env : PullEnv) (project : String) (tagOrId : Option String) (force : Bool)
       (now : String) (st : LocalStore) (res : PullResult) (st' : LocalStore)
       (selTags selIds : List String),
      pullSelection env.remote.tags env.remote.ids tagOrId = Except.ok (selTags, selIds) →
      pull project tagOrId env st force now = Except.ok (res, st') →
      (res.pulledTags = (pullFilter (st.ensureProjectSetup project) project force
          (selTags, selIds)).1.filter (fun t => tagUnitOk env t)
        ∧ res.failedTags = (pullFilter (st.ensureProjectSetup project) project force
            (selTags, selIds)).1.filter (fun t => !(tagUnitOk env t))
        ∧ res.pulledIds = (pullFilter (st.ensureProjectSetup project) project force
            (selTags, selIds)).2.filter (fun i => idUnitOk env i)
        ∧ res.failedIds = (pullFilter (st.ensureProjectSetup project) project force
            (selTags, selIds)).2.filter (fun i => !(idUnitOk env i)))
      ∧ (∀ t ∈ (pullFilter (st.ensureProjectSetup project) project force (selTags, selIds)).1,
          (t ∈ res.pulledTags ∧ t ∉ res.failedTags) ∨ (t ∈ res.failedTags ∧ t ∉ res.pulledTags))
      ∧ (∀ i ∈ (pullFilter (st.ensureProjectSetup project) project force (selTags, selIds)).2,
          (i ∈ res.pulledIds ∧ i ∉ res.failedIds) ∨ (i ∈ res.failedIds ∧ i ∉ res.pulledIds)))
    ∧ (∀ l : List TagSettlement,
        exceptOk (aggregateTagSettlements l) = false ↔ TagSettlement.rejectedOther ∈ l)
    ∧ (∀ l : List IdSettlement,
        exceptOk (aggregateIdSettlements l) = false ↔ IdSettlement.rejectedOther ∈ l)
    ∧ (∀ (env : PullEnv) (project now : String) (st : LocalStore) (tags : List String),
        TagSettlement.rejectedOther ∉ (runTagUnits env project now st tags).1)
    ∧ (∀ (env : PullEnv) (project now : String) (st : LocalStore) (ids : List String),
        IdSettlement.rejectedOther ∉ (runIdUnits env project now st ids).1) := by
  refine ⟨?_, ?_, ?_, ?_, ?_⟩
  · intro env project tagOrId force now st res st' selTags selIds hsel h
    obtain ⟨_, _, h1, h2, h3, h4, _⟩ :=
      pull_ok_char project tagOrId env st force now res st' selTags selIds hsel h
    refine ⟨⟨h1, h2, h3, h4⟩, ?_, ?_⟩
    · intro t ht
      by_cases hok : tagUnitOk env t = true
      · refine Or.inl ⟨?_, ?_⟩
        · rw [h1]; exact List.mem_filter.mpr ⟨ht, hok⟩
        · rw [h2]; intro hc
          have := (List.mem_filter.mp hc).2
          simp [hok] at this
      · refine Or.inr ⟨?_, ?_⟩
        · rw [h2]; exact List.mem_filter.mpr ⟨ht, by simp [hok]⟩
        · rw [h1]; intro hc
          exact hok (List.mem_filter.mp hc).2
    · intro i hi
      by_cases hok : idUnitOk env i = true
      · refine Or.inl ⟨?_, ?_⟩
        · rw [h3]; exact List.mem_filter.mpr ⟨hi, hok⟩
        · rw [h4]; intro hc
          have := (List.mem_filter.mp hc).2
          simp [hok] at this
      · refine Or.inr ⟨?_, ?_⟩
        · rw [h4]; exact List.mem_filter.mpr ⟨hi, by simp [hok]⟩
        · rw [h3]; intro hc
          exact hok (List.mem_filter.mp hc).2
  · intro l
    exact aggTag_error_iff l [] []
  · intro l
    exact aggId_error_iff l [] []
  · intro env project now st tags
    rw [runTagUnits_settlements]
    intro hc
    obtain ⟨t, _, ht⟩ := List.mem_map.mp hc
    by_cases hok : tagUnitOk env t = true <;> simp [hok] at ht
  · intro env project now st ids
    rw [runIdUnits_settlements]
    intro hc
    obtain ⟨i, _, hi⟩ := List.mem_map.mp hc
    by_cases hok : idUnitOk env i = true <;> simp [hok] at hi

/-- Witness for C5: a pull with one failing and one succeeding tag download
partitions the keys, and the failing unit leaves the succeeding ones
pulled. -/
theorem claim_C5_witness :
    pull "proj" none exPullEnv exStore0 false "now" = Except.ok (exPullRes, exPullStore1)
    ∧ (("t1" ∈ exPullRes.pulledTags ∧ "t1" ∉ exPullRes.failedTags)
        ∨ ("t1" ∈ exPullRes.failedTags ∧ "t1" ∉ exPullRes.pulledTags))
    ∧ (("t2" ∈ exPullRes.pulledTags ∧ "t2" ∉ exPullRes.failedTags)
        ∨ ("t2" ∈ exPullRes.failedTags ∧ "t2" ∉ exPullRes.pulledTags)) :=
  ⟨by decide,
   (claim_C5.1 exPullEnv "proj" none false "now" exStore0 exPullRes exPullStore1
      ["t1", "t2"] ["i1"] (by decide) (by decide)).2.1 "t1" (by decide),
   (claim_C5.1 exPullEnv "proj" none false "now" exStore0 exPullRes exPullStore1
      ["t1", "t2"] ["i1"] (by decide) (by decide)).2.1 "t2" (by decide)⟩


/-!
Helper lemmas about the local store operations used by pull: project name
listings are stable, created files appear in listings, and creates of one
kind leave the listings of the other kind untouched.
-/

/-- A name-preserving update mapped over a project listing commutes with the
project search. -/
theorem findProjectIn_map_update (p q : String) (f : LocalProject → LocalProject)
    (hname : ∀ pr, (f pr).name = pr.name) :
    ∀ l : List LocalProject,
      findProjectIn (l.map (fun pr => if pr.name = p then f pr else pr)) q
        = (findProjectIn l q).map (fun pr => if pr.name = p then f pr else pr) := by
  intro l
  induction l with
  | nil => rfl
  | cons pr rest ih =>
    have hn : (if pr.name = p then f pr else pr).name = pr.name := by
      split
      · exact hname pr
      · rfl
    simp only [List.map_cons, findProjectIn, hn]
    by_cases hq : pr.name = q
    · rw [if_pos hq, if_pos hq]
      rfl
    · rw [if_neg hq, if_neg hq]
      exact ih

/-- The found project carries the searched name. -/
theorem findProjectIn_some_name :
    ∀ (l : List LocalProject) (q : String) (pr : LocalProject),
      findProjectIn l q = some pr → pr.name = q := by
  intro l
  induction l with
  | nil => intro q pr h; exact absurd h (by simp [findProjectIn])
  | cons pr0 rest ih =>
    intro q pr h
    by_cases hq : pr0.name = q
    · rw [findProjectIn, if_pos hq] at h
      cases h
      exact hq
    · rw [findProjectIn, if_neg hq] at h
      exact ih q pr h

/-- A project is found exactly when its name is listed. -/
theorem findProjectIn_isSome_iff :
    ∀ (l : List LocalProject) (q : String),
      (findProjectIn l q).isSome = true ↔ q ∈ l.map LocalProject.name := by
  intro l
  induction l with
  | nil => intro q; simp [findProjectIn]
  | cons pr rest ih =>
    intro q
    by_cases hq : pr.name = q
    · simp [findProjectIn, hq]
    · simp [findProjectIn, hq, ih, Ne.symm hq]

/-- A name-preserving update does not change the project name listing. -/
theorem map_update_names (p : String) (f : LocalProject → LocalProject)
    (hname : ∀ pr, (f pr).name = pr.name) :
    ∀ l : List LocalProject,
      (l.map (fun pr => if pr.name = p then f pr else pr)).map LocalProject.name
        = l.map LocalProject.name := by
  intro l
  induction l with
  | nil => rfl
  | cons pr rest ih =>
    by_cases h : pr.name = p <;> simp [h, ih, hname]

/-- Overwriting a file preserves the file name listing. -/
theorem setFile_upd_names (n c ts : String) :
    ∀ files : List LocalFile,
      (files.map (fun f => if f.name = n then { f with content := c, lastModifiedAt := ts }
          else f)).map LocalFile.name
        = files.map LocalFile.name := by
  intro files
  induction files with
  | nil => rfl
  | cons f rest ih =>
    by_cases h : f.name = n <;> simp [h, ih]

/-- Names present before a write are present after it. -/
theorem setFile_names_mono (files : List LocalFile) (n c ts x : String)
    (hx : x ∈ files.map LocalFile.name) :
    x ∈ (setFile files n c ts).map LocalFile.name := by
  unfold setFile
  split
  · rw [setFile_upd_names]
    exact hx
  · simp [hx]

/-- The written name is present after a write. -/
theorem setFile_names_self (files : List LocalFile) (n c ts : String) :
    n ∈ (setFile files n c ts).map LocalFile.name := by
  unfold setFile
  split
  · next hany =>
    rw [setFile_upd_names]
    obtain ⟨f, hf, hfn⟩ := List.any_eq_true.mp hany
    exact List.mem_map.mpr ⟨f, hf, by simpa using hfn⟩
  · simp

/-- The tag names listed for a project are the tag file names of that
project directory. -/
theorem listTags_fst (st : LocalStore) (p : String) :
    (st.listTags p).map Prod.fst
      = match st.findProject p with
        | some pr => pr.tagFiles.map LocalFile.name
        | none => [] := by
  unfold LocalStore.listTags
  cases st.findProject p <;> simp

/-- The id names listed for a project are the id file names of that project
directory. -/
theorem listIds_fst (st : LocalStore) (p : String) :
    (st.listIds p).map Prod.fst
      = match st.findProject p with
        | some pr => pr.idFiles.map LocalFile.name
        | none => [] := by
  unfold LocalStore.listIds
  cases st.findProject p <;> simp

/-- Creating a tag lists it (when the project directory exists). -/
theorem createTag_listTags_self (st : LocalStore) (p tag c ts : String)
    (hex : (findProjectIn st.projects p).isSome = true) :
    tag ∈ ((st.createArtifactByTag p tag c ts).listTags p).map Prod.fst := by
  rw [listTags_fst]
  show tag ∈ match findProjectIn ((st.createArtifactByTag p tag c ts).projects) p with
    | some pr => pr.tagFiles.map LocalFile.name
    | none => []
  unfold LocalStore.createArtifactByTag
  rw [findProjectIn_map_update p p (fun pr => { pr with tagFiles := setFile pr.tagFiles tag c ts }) (fun pr => rfl)]
  cases hfind : findProjectIn st.projects p with
  | none => rw [hfind] at hex; simp at hex
  | some pr =>
    have hpp : pr.name = p := findProjectIn_some_name st.projects p pr hfind
    simp only [Option.map_some']
    rw [if_pos hpp]
    exact setFile_names_self pr.tagFiles tag c ts

/-- Tags listed before a tag create remain listed. -/
theorem createTag_listTags_mono (st : LocalStore) (p tag c ts t : String)
    (ht : t ∈ (st.listTags p).map Prod.fst) :
    t ∈ ((st.createArtifactByTag p tag c ts).listTags p).map Prod.fst := by
  rw [listTags_fst] at ht ⊢
  show t ∈ match findProjectIn ((st.createArtifactByTag p tag c ts).projects) p with
    | some pr => pr.tagFiles.map LocalFile.name
    | none => []
  unfold LocalStore.createArtifactByTag
  rw [findProjectIn_map_update p p (fun pr => { pr with tagFiles := setFile pr.tagFiles tag c ts }) (fun pr => rfl)]
  cases hfind : findProjectIn st.projects p with
  | none =>
    rw [show st.findProject p = findProjectIn st.projects p from rfl, hfind] at ht
    simp at ht
  | some pr =>
    rw [show st.findProject p = findProjectIn st.projects p from rfl, hfind] at ht
    have hpp : pr.name = p := findProjectIn_some_name st.projects p pr hfind
    simp only [Option.map_some']
    rw [if_pos hpp]
    exact setFile_names_mono pr.tagFiles tag c ts t ht

/-- Creating an id leaves every tag listing unchanged. -/
theorem createById_listTags (st : LocalStore) (p i c ts q : String) :
    ((st.createArtifactById p i c ts).listTags q).map Prod.fst
      = (st.listTags q).map Prod.fst := by
  rw [listTags_fst, listTags_fst]
  show (match findProjectIn ((st.createArtifactById p i c ts).projects) q with
      | some pr => pr.tagFiles.map LocalFile.name
      | none => [])
    = match findProjectIn st.projects q with
      | some pr => pr.tagFiles.map LocalFile.name
      | none => []
  unfold LocalStore.createArtifactById
  rw [findProjectIn_map_update p q (fun pr => { pr with idFiles := setFile pr.idFiles i c ts }) (fun pr => rfl)]
  cases findProjectIn st.projects q with
  | none => rfl
  | some pr =>
    simp only [Option.map_some']
    split <;> rfl

/-- Creating a tag leaves every id listing unchanged. -/
theorem createTag_listIds (st : LocalStore) (p tag c ts q : String) :
    ((st.createArtifactByTag p tag c ts).listIds q).map Prod.fst
      = (st.listIds q).map Prod.fst := by
  rw [listIds_fst, listIds_fst]
  show (match findProjectIn ((st.createArtifactByTag p tag c ts).projects) q with
      | some pr => pr.idFiles.map LocalFile.name
      | none => [])
    = match findProjectIn st.projects q with
      | some pr => pr.idFiles.map LocalFile.name
      | none => []
  unfold LocalStore.createArtifactByTag
  rw [findProjectIn_map_update p q (fun pr => { pr with tagFiles := setFile pr.tagFiles tag c ts }) (fun pr => rfl)]
  cases findProjectIn st.projects q with
  | none => rfl
  | some pr =>
    simp only [Option.map_some']
    split <;> rfl

/-- Creating an id lists it (when the project directory exists). -/
theorem createById_listIds_self (st : LocalStore) (p i c ts : String)
    (hex : (findProjectIn st.projects p).isSome = true) :
    i ∈ ((st.createArtifactById p i c ts).listIds p).map Prod.fst := by
  rw [listIds_fst]
  show i ∈ match findProjectIn ((st.createArtifactById p i c ts).projects) p with
    | some pr => pr.idFiles.map LocalFile.name
    | none => []
  unfold LocalStore.createArtifactById
  rw [findProjectIn_map_update p p (fun pr => { pr with idFiles := setFile pr.idFiles i c ts }) (fun pr => rfl)]
  cases hfind : findProjectIn st.projects p with
  | none => rw [hfind] at hex; simp at hex
  | some pr =>
    have hpp : pr.name = p := findProjectIn_some_name st.projects p pr hfind
    simp only [Option.map_some']
    rw [if_pos hpp]
    exact setFile_names_self pr.idFiles i c ts

/-- Ids listed before an id create remain listed. -/
theorem createById_listIds_mono (st : LocalStore) (p i c ts x : String)
    (hx : x ∈ (st.listIds p).map Prod.fst) :
    x ∈ ((st.createArtifactById p i c ts).listIds p).map Prod.fst := by
  rw [listIds_fst] at hx ⊢
  show x ∈ match findProjectIn ((st.createArtifactById p i c ts).projects) p with
    | some pr => pr.idFiles.map LocalFile.name
    | none => []
  unfold LocalStore.createArtifactById
  rw [findProjectIn_map_update p p (fun pr => { pr with idFiles := setFile pr.idFiles i c ts }) (fun pr => rfl)]
  cases hfind : findProjectIn st.projects p with
  | none =>
    rw [show st.findProject p = findProjectIn st.projects p from rfl, hfind] at hx
    simp at hx
  | some pr =>
    rw [show st.findProject p = findProjectIn st.projects p from rfl, hfind] at hx
    have hpp : pr.name = p := findProjectIn_some_name st.projects p pr hfind
    simp only [Option.map_some']
    rw [if_pos hpp]
    exact setFile_names_mono pr.idFiles i c ts x hx

/-- Creating a tag preserves the project name listing. -/
theorem createTag_names (st : LocalStore) (p tag c ts : String) :
    (st.createArtifactByTag p tag c ts).projects.map LocalProject.name
      = st.projects.map LocalProject.name := by
  unfold LocalStore.createArtifactByTag
  exact map_update_names p (fun pr => { pr with tagFiles := setFile pr.tagFiles tag c ts }) (fun pr => rfl) st.projects

/-- Creating an id preserves the project name listing. -/
theorem createById_names (st : LocalStore) (p i c ts : String) :
    (st.createArtifactById p i c ts).projects.map LocalProject.name
      = st.projects.map LocalProject.name := by
  unfold LocalStore.createArtifactById
  exact map_update_names p (fun pr => { pr with idFiles := setFile pr.idFiles i c ts }) (fun pr => rfl) st.projects

/-- EnsureProjectSetup lists the requested project. -/
theorem ensure_mem_names (st : LocalStore) (p : String) :
    p ∈ (st.ensureProjectSetup p).projects.map LocalProject.name := by
  unfold LocalStore.ensureProjectSetup
  split
  · next hany =>
    obtain ⟨pr, hpr, hname⟩ := List.any_eq_true.mp hany
    exact List.mem_map.mpr ⟨pr, hpr, by simpa using hname⟩
  · simp

/-- EnsureProjectSetup is a no-op when the project is already listed. -/
theorem ensure_noop (st : LocalStore) (p : String)
    (hmem : p ∈ st.projects.map LocalProject.name) :
    st.ensureProjectSetup p = st := by
  unfold LocalStore.ensureProjectSetup
  rw [if_pos]
  obtain ⟨pr, hpr, hname⟩ := List.mem_map.mp hmem
  exact List.any_eq_true.mpr ⟨pr, hpr, by simp [hname]⟩

/-!
Helper lemmas lifting the per-file store facts through the download units.
-/

/-- The tag units preserve the project name listing. -/
theorem runTagUnits_names (env : PullEnv) (p now : String) :
    ∀ (tags : List String) (st : LocalStore),
      ((runTagUnits env p now st tags).2).projects.map LocalProject.name
        = st.projects.map LocalProject.name := by
  intro tags
  induction tags with
  | nil => intro st; rfl
  | cons t rest ih =>
    intro st
    simp only [runTagUnits]
    cases hdl : env.remote.downloadTag t with
    | none => simpa [runTagUnit, hdl] using ih st
    | some c =>
      by_cases hw : env.tagWriteOk t = true
      · simp only [runTagUnit, hdl, hw, if_true]
        rw [ih]
        exact createTag_names st p t c now
      · simpa [runTagUnit, hdl, hw] using ih st

/-- The id units preserve the project name listing. -/
theorem runIdUnits_names (env : PullEnv) (p now : String) :
    ∀ (ids : List String) (st : LocalStore),
      ((runIdUnits env p now st ids).2).projects.map LocalProject.name
        = st.projects.map LocalProject.name := by
  intro ids
  induction ids with
  | nil => intro st; rfl
  | cons i rest ih =>
    intro st
    simp only [runIdUnits]
    cases hdl : env.remote.downloadId i with
    | none => simpa [runIdUnit, hdl] using ih st
    | some c =>
      by_cases hw : env.idWriteOk i = true
      · simp only [runIdUnit, hdl, hw, if_true]
        rw [ih]
        exact createById_names st p i c now
      · simpa [runIdUnit, hdl, hw] using ih st

/-- Tags listed before the tag units remain listed after them. -/
theorem runTagUnits_tags_mono (env : PullEnv) (p now : String) :
    ∀ (tags : List String) (st : LocalStore) (t : String),
      t ∈ (st.listTags p).map Prod.fst →
      t ∈ (((runTagUnits env p now st tags).2).listTags p).map Prod.fst := by
  intro tags
  induction tags with
  | nil => intro st t ht; exact ht
  | cons t0 rest ih =>
    intro st t ht
    simp only [runTagUnits]
    cases hdl : env.remote.downloadTag t0 with
    | none => simpa [runTagUnit, hdl] using ih st t ht
    | some c =>
      by_cases hw : env.tagWriteOk t0 = true
      · simp only [runTagUnit, hdl, hw, if_true]
        exact ih _ t (createTag_listTags_mono st p t0 c now t ht)
      · simpa [runTagUnit, hdl, hw] using ih st t ht

/-- Ids listed before the id units remain listed after them. -/
theorem runIdUnits_ids_mono (env : PullEnv) (p now : String) :
    ∀ (ids : List String) (st : LocalStore) (i : String),
      i ∈ (st.listIds p).map Prod.fst →
      i ∈ (((runIdUnits env p now st ids).2).listIds p).map Prod.fst := by
  intro ids
  induction ids with
  | nil => intro st i hi; exact hi
  | cons i0 rest ih =>
    intro st i hi
    simp only [runIdUnits]
    cases hdl : env.remote.downloadId i0 with
    | none => simpa [runIdUnit, hdl] using ih st i hi
    | some c =>
      by_cases hw : env.idWriteOk i0 = true
      · simp only [runIdUnit, hdl, hw, if_true]
        exact ih _ i (createById_listIds_mono st p i0 c now i hi)
      · simpa [runIdUnit, hdl, hw] using ih st i hi

/-- The id units leave the tag listing unchanged. -/
theorem runIdUnits_listTags (env : PullEnv) (p now : String) :
    ∀ (ids : List String) (st : LocalStore) (q : String),
      (((runIdUnits env p now st ids).2).listTags q).map Prod.fst
        = (st.listTags q).map Prod.fst := by
  intro ids
  induction ids with
  | nil => intro st q; rfl
  | cons i0 rest ih =>
    intro st q
    simp only [runIdUnits]
    cases hdl : env.remote.downloadId i0 with
    | none => simpa [runIdUnit, hdl] using ih st q
    | some c =>
      by_cases hw : env.idWriteOk i0 = true
      · simp only [runIdUnit, hdl, hw, if_true]
        rw [ih]
        exact createById_listTags st p i0 c now q
      · simpa [runIdUnit, hdl, hw] using ih st q

/-- The tag units leave the id listing unchanged. -/
theorem runTagUnits_listIds (env : PullEnv) (p now : String) :
    ∀ (tags : List String) (st : LocalStore) (q : String),
      (((runTagUnits env p now st tags).2).listIds q).map Prod.fst
        = (st.listIds q).map Prod.fst := by
  intro tags
  induction tags with
  | nil => intro st q; rfl
  | cons t0 rest ih =>
    intro st q
    simp only [runTagUnits]
    cases hdl : env.remote.downloadTag t0 with
    | none => simpa [runTagUnit, hdl] using ih st q
    | some c =>
      by_cases hw : env.tagWriteOk t0 = true
      · simp only [runTagUnit, hdl, hw, if_true]
        rw [ih]
        exact createTag_listIds st p t0 c now q
      · simpa [runTagUnit, hdl, hw] using ih st q

/-- Every tag whose unit succeeds is listed after the tag units (when the
project directory exists). -/
theorem runTagUnits_tags_cover (env : PullEnv) (p now : String) :
    ∀ (tags : List String) (st : LocalStore) (t : String),
      t ∈ tags → tagUnitOk env t = true →
      (findProjectIn st.projects p).isSome = true →
      t ∈ (((runTagUnits env p now st tags).2).listTags p).map Prod.fst := by
  intro tags
  induction tags with
  | nil => intro st t ht; exact absurd ht (by simp)
  | cons t0 rest ih =>
    intro st t ht hok hex
    simp only [runTagUnits]
    rcases List.mem_cons.mp ht with heq | hmem
    · subst heq
      rw [tagUnitOk, Bool.and_eq_true] at hok
      obtain ⟨hdl, hw⟩ := hok
      rw [Option.isSome_iff_exists] at hdl
      obtain ⟨c, hc⟩ := hdl
      simp only [runTagUnit, hc, hw, if_true]
      exact runTagUnits_tags_mono env p now rest _ t
        (createTag_listTags_self st p t c now hex)
    · cases hdl : env.remote.downloadTag t0 with
      | none =>
        simp only [runTagUnit, hdl]
        exact ih st t hmem hok hex
      | some c =>
        by_cases hw : env.tagWriteOk t0 = true
        · simp only [runTagUnit, hdl, hw, if_true]
          apply ih _ t hmem hok
          rw [findProjectIn_isSome_iff, createTag_names]
          rw [findProjectIn_isSome_iff] at hex
          exact hex
        · simp only [runTagUnit, hdl, hw, if_false, Bool.false_eq_true]
          exact ih st t hmem hok hex

/-- Every id whose unit succeeds is listed after the id units (when the
project directory exists). -/
theorem runIdUnits_ids_cover (env : PullEnv) (p now : String) :
    ∀ (ids : List String) (st : LocalStore) (i : String),
      i ∈ ids → idUnitOk env i = true →
      (findProjectIn st.projects p).isSome = true →
      i ∈ (((runIdUnits env p now st ids).2).listIds p).map Prod.fst := by
  intro ids
  induction ids with
  | nil => intro st i hi; exact absurd hi (by simp)
  | cons i0 rest ih =>
    intro st i hi hok hex
    simp only [runIdUnits]
    rcases List.mem_cons.mp hi with heq | hmem
    · subst heq
      rw [idUnitOk, Bool.and_eq_true] at hok
      obtain ⟨hdl, hw⟩ := hok
      rw [Option.isSome_iff_exists] at hdl
      obtain ⟨c, hc⟩ := hdl
      simp only [runIdUnit, hc, hw, if_true]
      exact runIdUnits_ids_mono env p now rest _ i
        (createById_listIds_self st p i c now hex)
    · cases hdl : env.remote.downloadId i0 with
      | none =>
        simp only [runIdUnit, hdl]
        exact ih st i hmem hok hex
      | some c =>
        by_cases hw : env.idWriteOk i0 = true
        · simp only [runIdUnit, hdl, hw, if_true]
          apply ih _ i hmem hok
          rw [findProjectIn_isSome_iff, createById_names]
          rw [findProjectIn_isSome_iff] at hex
          exact hex
        · simp only [runIdUnit, hdl, hw, if_false, Bool.false_eq_true]
          exact ih st i hmem hok hex

/-- Equation of the local-presence filter when force is off. -/
theorem pullFilter_false_eq (st : LocalStore) (p : String) (sel : List String × List String) :
    pullFilter st p false sel
      = (sel.1.filter (fun t => t ∉ (st.listTags p).map Prod.fst),
         sel.2.filter (fun i => i ∉ (st.listIds p).map Prod.fst)) := rfl

/-- Claim C7: with force off the selection is filtered by local name
presence only; with force on no filtering occurs; a pull immediately after a
complete pull downloads nothing and leaves the store untouched; and a forced
pull re-attempts every selected tag and id. -/
theorem claim_C7 :
    (∀ (st : LocalStore) (project : String) (sel : List String × List String),
      pullFilter st project false sel
        = (sel.1.filter (fun t => t ∉ (st.listTags project).map Prod.fst),
           sel.2.filter (fun i => i ∉ (st.listIds project).map Prod.fst)))
    ∧ (∀ (st : LocalStore) (project : String) (sel : List String × List String),
      pullFilter st project true sel = sel)
    ∧ (∀ (env : PullEnv) (project : String) (st : LocalStore) (now now2 : String)
         (res : PullResult) (st' : LocalStore),
        pull project none env st false now = Except.ok (res, st') →
        res.failedTags = [] → res.failedIds = [] →
        pull project none env st' false now2
          = Except.ok ({ remoteTags := env.remote.tags, remoteIds := env.remote.ids,
                         pulledTags := [], pulledIds := [], failedTags := [],
                         failedIds := [] }, st'))
    ∧ (∀ (env : PullEnv) (project : String) (st : LocalStore) (now : String)
         (res : PullResult) (st' : LocalStore),
        pull project none env st true now = Except.ok (res, st') →
        (∀ t ∈ env.remote.tags, t ∈ res.pulledTags ∨ t ∈ res.failedTags)
        ∧ (∀ i ∈ env.remote.ids, i ∈ res.pulledIds ∨ i ∈ res.failedIds)) := by
  refine ⟨?_, ?_, ?_, ?_⟩
  · intro st project sel
    rfl
  · intro st project sel
    rfl
  · intro env project st now now2 res st' hpull hft hfi
    obtain ⟨_, _, h1, h2, h3, h4, hst⟩ := pull_ok_char project none env st false now res st'
      env.remote.tags env.remote.ids rfl hpull
    have hallT : ∀ t ∈ (pullFilter (st.ensureProjectSetup project) project false
        (env.remote.tags, env.remote.ids)).1, tagUnitOk env t = true := by
      intro t ht
      by_contra hnok
      have hmemf : t ∈ res.failedTags := by
        rw [h2]
        exact List.mem_filter.mpr ⟨ht, by simp [Bool.eq_false_iff.mpr hnok]⟩
      rw [hft] at hmemf
      simp at hmemf
    have hallI : ∀ i ∈ (pullFilter (st.ensureProjectSetup project) project false
        (env.remote.tags, env.remote.ids)).2, idUnitOk env i = true := by
      intro i hi
      by_contra hnok
      have hmemf : i ∈ res.failedIds := by
        rw [h4]
        exact List.mem_filter.mpr ⟨hi, by simp [Bool.eq_false_iff.mpr hnok]⟩
      rw [hfi] at hmemf
      simp at hmemf
    have hproj0 : (findProjectIn (st.ensureProjectSetup project).projects project).isSome
        = true := by
      rw [findProjectIn_isSome_iff]
      exact ensure_mem_names st project
    have hcovT : ∀ t ∈ env.remote.tags, t ∈ (st'.listTags project).map Prod.fst := by
      intro t ht
      rw [hst, runIdUnits_listTags]
      by_cases hmem : t ∈ (pullFilter (st.ensureProjectSetup project) project false
          (env.remote.tags, env.remote.ids)).1
      · exact runTagUnits_tags_cover env project now _ _ t hmem (hallT t hmem) hproj0
      · have hloc : t ∈ ((st.ensureProjectSetup project).listTags project).map Prod.fst := by
          by_contra hnotloc
          apply hmem
          rw [pullFilter_false_eq]
          exact List.mem_filter.mpr ⟨ht, decide_eq_true hnotloc⟩
        exact runTagUnits_tags_mono env project now _ _ t hloc
    have hcovI : ∀ i ∈ env.remote.ids, i ∈ (st'.listIds project).map Prod.fst := by
      intro i hi
      rw [hst]
      by_cases hmem : i ∈ (pullFilter (st.ensureProjectSetup project) project false
          (env.remote.tags, env.remote.ids)).2
      · apply runIdUnits_ids_cover env project now _ _ i hmem (hallI i hmem)
        rw [findProjectIn_isSome_iff, runTagUnits_names]
        exact ensure_mem_names st project
      · have hloc : i ∈ ((st.ensureProjectSetup project).listIds project).map Prod.fst := by
          by_contra hnotloc
          apply hmem
          rw [pullFilter_false_eq]
          exact List.mem_filter.mpr ⟨hi, decide_eq_true hnotloc⟩
        apply runIdUnits_ids_mono
        rw [runTagUnits_listIds]
        exact hloc
    have hnames : project ∈ st'.projects.map LocalProject.name := by
      rw [hst, runIdUnits_names, runTagUnits_names]
      exact ensure_mem_names st project
    have hens2 : st'.ensureProjectSetup project = st' := ensure_noop st' project hnames
    have hfilT : (env.remote.tags).filter
        (fun t => t ∉ (st'.listTags project).map Prod.fst) = [] :=
      List.filter_eq_nil_iff.mpr (fun t ht => by simp [hcovT t ht])
    have hfilI : (env.remote.ids).filter
        (fun i => i ∉ (st'.listIds project).map Prod.fst) = [] :=
      List.filter_eq_nil_iff.mpr (fun i hi => by simp [hcovI i hi])
    have hfil : pullFilter st' project false (env.remote.tags, env.remote.ids) = ([], []) := by
      show ((env.remote.tags).filter (fun t => t ∉ (st'.listTags project).map Prod.fst),
        (env.remote.ids).filter (fun i => i ∉ (st'.listIds project).map Prod.fst)) = ([], [])
      rw [hfilT, hfilI]
    simp only [pull, pullSelection, except_ok_bind, hens2, hfil]
    rfl
  · intro env project st now res st' hpull
    obtain ⟨_, _, h1, h2, h3, h4, _⟩ := pull_ok_char project none env st true now res st'
      env.remote.tags env.remote.ids rfl hpull
    constructor
    · intro t ht
      by_cases hok : tagUnitOk env t = true
      · left
        rw [h1]
        exact List.mem_filter.mpr ⟨ht, hok⟩
      · right
        rw [h2]
        exact List.mem_filter.mpr ⟨ht, by simp [Bool.eq_false_iff.mpr hok]⟩
    · intro i hi
      by_cases hok : idUnitOk env i = true
      · left
        rw [h3]
        exact List.mem_filter.mpr ⟨hi, hok⟩
      · right
        rw [h4]
        exact List.mem_filter.mpr ⟨hi, by simp [Bool.eq_false_iff.mpr hok]⟩

/-- Witness for C7: a complete pull from exPullEnvOk, after which a second
unforced pull downloads nothing, while a forced pull re-attempts every
remote tag. -/
theorem claim_C7_witness :
    pull "proj" none exPullEnvOk exStore0 false "now" = Except.ok (exC7Res1, exC7Store1)
    ∧ pull "proj" none exPullEnvOk exC7Store1 false "later"
        = Except.ok ({ remoteTags := exPullEnvOk.remote.tags,
                       remoteIds := exPullEnvOk.remote.ids, pulledTags := [],
                       pulledIds := [], failedTags := [], failedIds := [] }, exC7Store1)
    ∧ ("t1" ∈ exC7Res1.pulledTags ∨ "t1" ∈ exC7Res1.failedTags) := by
  have h1 : pull "proj" none exPullEnvOk exStore0 false "now"
      = Except.ok (exC7Res1, exC7Store1) := by decide
  have h2 : pull "proj" none exPullEnvOk exStore0 true "now"
      = Except.ok (exC7Res1, exC7Store1) := by decide
  exact ⟨h1,
    claim_C7.2.2.1 exPullEnvOk "proj" exStore0 "now" "later" exC7Res1 exC7Store1 h1 rfl rfl,
    (claim_C7.2.2.2 exPullEnvOk "proj" exStore0 "now" exC7Res1 exC7Store1 h2).1 "t1"
      (by decide)⟩

/-!
Helper lemmas about the listing of pulled artifacts.
-/

/-- Unfolding of the rows produced for one project. -/
theorem processProject_fst (acc : List ArtifactItem × List String) (pr : LocalProject) :
    (processProject acc pr).1
      = acc.1
        ++ pr.tagFiles.map (fun f => ArtifactItem.mk pr.name (fallbackArtifactId f.content)
            (some f.name) f.lastModifiedAt)
        ++ (pr.idFiles.foldl (listIdStep pr.name)
            ([], acc.2 ++ pr.tagFiles.map (fun f => fallbackArtifactId f.content))).1 := rfl

/-- Rows accumulated before the project fold survive it. -/
theorem proc_fold_items_mono :
    ∀ (prs : List LocalProject) (acc : List ArtifactItem × List String) (x : ArtifactItem),
      x ∈ acc.1 → x ∈ (prs.foldl processProject acc).1 := by
  intro prs
  induction prs with
  | nil => intro acc x hx; exact hx
  | cons pr rest ih =>
    intro acc x hx
    apply ih
    rw [processProject_fst]
    exact List.mem_append.mpr (Or.inl (List.mem_append.mpr (Or.inl hx)))

/-- A row emitted by the id loop either predates it, or is an ID-only row
for an id that was not visited when the loop started. -/
theorem idFold_mem (prName : String) :
    ∀ (files : List LocalFile) (init : List ArtifactItem × List String) (x : ArtifactItem),
      x ∈ (files.foldl (listIdStep prName) init).1 →
      x ∈ init.1 ∨ (x.project = prName ∧ x.tag = none ∧ x.id ∉ init.2) := by
  intro files
  induction files with
  | nil => intro init x hx; exact Or.inl hx
  | cons f rest ih =>
    intro init x hx
    simp only [List.foldl_cons] at hx
    by_cases hv : f.name ∈ init.2
    · rw [listIdStep, if_pos hv] at hx
      exact ih init x hx
    · rw [listIdStep, if_neg hv] at hx
      rcases ih _ x hx with hmem | ⟨hproj, htag, hvis⟩
      · rcases List.mem_append.mp hmem with hmem0 | hrow
        · exact Or.inl hmem0
        · have hx2 : x = ArtifactItem.mk prName f.name none f.lastModifiedAt := by
            simpa using hrow
          subst hx2
          exact Or.inr ⟨rfl, rfl, hv⟩
      · refine Or.inr ⟨hproj, htag, fun hc => hvis ?_⟩
        exact List.mem_append.mpr (Or.inl hc)

/-- An ID-only row of the full listing comes from a project of that name
none of whose tag files has the row id as fallback content hash. -/
theorem listFold_idRow :
    ∀ (prs : List LocalProject) (acc : List ArtifactItem × List String) (x : ArtifactItem),
      x.tag = none →
      x ∈ (prs.foldl processProject acc).1 →
      x ∈ acc.1 ∨ ∃ pr ∈ prs, pr.name = x.project ∧
        ∀ f ∈ pr.tagFiles, fallbackArtifactId f.content ≠ x.id := by
  intro prs
  induction prs with
  | nil => intro acc x _ hx; exact Or.inl hx
  | cons pr rest ih =>
    intro acc x hxtag hx
    simp only [List.foldl_cons] at hx
    rcases ih _ x hxtag hx with hacc | ⟨pr', hpr', hname, hprop⟩
    · rw [processProject_fst] at hacc
      rcases List.mem_append.mp hacc with h12 | hid
      · rcases List.mem_append.mp h12 with h0 | htagrow
        · exact Or.inl h0
        · obtain ⟨f, _, hf⟩ := List.mem_map.mp htagrow
          rw [← hf] at hxtag
          simp at hxtag
      · rcases idFold_mem pr.name pr.idFiles _ x hid with hnil | ⟨hproj, _, hvis⟩
        · simp at hnil
        · refine Or.inr ⟨pr, List.mem_cons_self pr rest, hproj.symm, ?_⟩
          intro f hf hc
          apply hvis
          refine List.mem_append.mpr (Or.inr ?_)
          exact List.mem_map.mpr ⟨f, hf, hc⟩
    · exact Or.inr ⟨pr', List.mem_cons_of_mem pr hpr', hname, hprop⟩

/-- Every tag file of every project yields its row in the full listing. -/
theorem listFold_tagRow :
    ∀ (prs : List LocalProject) (acc : List ArtifactItem × List String)
      (pr : LocalProject) (f : LocalFile), pr ∈ prs → f ∈ pr.tagFiles →
      ArtifactItem.mk pr.name (fallbackArtifactId f.content) (some f.name) f.lastModifiedAt
        ∈ (prs.foldl processProject acc).1 := by
  intro prs
  induction prs with
  | nil => intro acc pr f hpr; exact absurd hpr (by simp)
  | cons pr0 rest ih =>
    intro acc pr f hpr hf
    simp only [List.foldl_cons]
    rcases List.mem_cons.mp hpr with heq | hmem
    · subst heq
      apply proc_fold_items_mono
      rw [processProject_fst]
      refine List.mem_append.mpr (Or.inl (List.mem_append.mpr (Or.inr ?_)))
      exact List.mem_map.mpr ⟨f, hf, rfl⟩
    · exact ih _ pr f hmem hf

/-- Claim C9 as amended: the listing yields one row per tag file, carrying
the fallback content-hash id of the tag file bytes; and an ID-only row for
an id appears within a project only if that id differs from the fallback
content-hash id of every tag file of that project (the deduplication
compares fallback hashes, not the canonical ids tags point to). -/
theorem claim_C9 :
    (∀ (st : LocalStore) (pr : LocalProject) (f : LocalFile),
      pr ∈ st.projects → f ∈ pr.tagFiles →
      ArtifactItem.mk pr.name (fallbackArtifactId f.content) (some f.name) f.lastModifiedAt
        ∈ listPulledArtifacts st)
    ∧ (∀ (st : LocalStore) (p id ts : String),
        (st.projects.map LocalProject.name).Nodup →
        ArtifactItem.mk p id none ts ∈ listPulledArtifacts st →
        ∀ pr ∈ st.projects, pr.name = p →
        ∀ f ∈ pr.tagFiles, fallbackArtifactId f.content ≠ id) := by
  constructor
  · intro st pr f hpr hf
    exact listFold_tagRow st.projects ([], []) pr f hpr hf
  · intro st p id ts hnodup hmem pr hpr hname f hf
    rcases listFold_idRow st.projects ([], []) (ArtifactItem.mk p id none ts) rfl hmem with
      hnil | ⟨pr', hpr', hname', hprop⟩
    · simp at hnil
    · have hpr_eq : pr = pr' :=
        List.inj_on_of_nodup_map hnodup hpr hpr' (by rw [hname, hname'])
      exact hprop f (hpr_eq ▸ hf)

/-- Counterexample to C9 as stated: in exStoreC9 the tag v1 points (by byte
copy) to the id bbbbbbbbbbbb, yet that id is still emitted as an ID-only
row, because the deduplication uses the fallback content hash of the tag
file, which differs from the canonical id. -/
theorem claim_C9_counterexample :
    tagPointsToId exStoreC9 "p" "v1" "bbbbbbbbbbbb" = true
    ∧ ArtifactItem.mk "p" "bbbbbbbbbbbb" none "t1" ∈ listPulledArtifacts exStoreC9 :=
  ⟨by decide, by decide⟩

/-- Witness for the amended C9: the ID-only row emitted in exStoreC9 differs
from the fallback hash of the tag file of its project. -/
theorem claim_C9_witness :
    fallbackArtifactId "content" ≠ "bbbbbbbbbbbb" :=
  claim_C9.2 exStoreC9 "p" "bbbbbbbbbbbb" "t1" (by decide) (by decide) exProjC9
    (by decide) rfl { name := "v1", content := "content", lastModifiedAt := "t1" } (by decide)

end Soko
